import Mathlib

/-!
Verification of the Gist synchronization engine: the manifest data model and its
merge, the conflict-detection-and-retry protocol, the chunked JSON exporter, the
deduplicating importer, and the push orchestration.

Each definition is a shallow embedding of the corresponding Python function
(`src/sync/manifest.py`, `src/sync/sync_manager.py`, `src/sync/json_export.py`,
`src/sync/json_import.py`).  Conventions used throughout:

* Timestamps (`datetime.fromisoformat` / `.isoformat()`): an ISO-8601 instant is
  modelled by the natural number of its instant on the time line; the textual
  form of instant `t` is rendered as `t` repetitions of the character `i`, and
  any other string is malformed (i.e. `fromisoformat` raises `ValueError`).
  Chronological comparison of parsed timestamps is numeric comparison of the
  parsed values, exactly as comparison of `datetime` objects.
* A Python function that can raise an exception that its callers do not catch is
  embedded as an `Option`/sum-returning function, `none` standing for the raised
  exception.
* Dates (`YYYY-MM-DD` strings compared lexicographically and sliced with
  `substr`) are modelled structurally as year/month/day triples with the induced
  lexicographic order; `substr(date, 1, 4)` becomes the year projection and
  `substr(date, 1, 7)` the year-month projection, which agree with the string
  operations whenever the column holds well-formed fixed-width dates.
* The SQLite table `usage_records` is modelled as the list of its rows in
  `ORDER BY timestamp ASC` order; `SELECT ... WHERE` becomes `List.filter` on
  that list.
-/

namespace CCUA

/-! ### Timestamps (`datetime.fromisoformat` / `isoformat`) -/

/-- Model of `datetime.fromisoformat(s.replace("Z", "+00:00"))`: returns the
parsed instant, or `none` when the string is malformed (`ValueError`). -/
def parseTs (s : String) : Option Nat :=
  if s.data.all (fun c => c == 'i') then some s.data.length else none

/-- Model of `datetime.isoformat()` applied to the instant `t`. -/
def serializeTs (t : Nat) : String :=
  String.mk (List.replicate t 'i')

theorem parseTs_serializeTs (t : Nat) : parseTs (serializeTs t) = some t := by
  have hall : (List.replicate t 'i').all (fun c => c == 'i') = true := by
    rw [List.all_eq_true]
    intro x hx
    rw [List.eq_of_mem_replicate hx]
    rfl
  simp [parseTs, serializeTs, String.mk, hall]

/-! ### Dates -/

/-- A `YYYY-MM-DD` value of the `date` column, structurally.  `Date.leB` is the
lexicographic comparison that string `<=` performs on well-formed fixed-width
date strings. -/
structure Date where
  y : Nat
  m : Nat
  d : Nat
deriving DecidableEq, Repr

/-- String `<=` on two well-formed date strings. -/
def Date.leB (a b : Date) : Bool :=
  decide (a.y < b.y) ||
    (a.y == b.y && (decide (a.m < b.m) || (a.m == b.m && decide (a.d ≤ b.d))))

/-- String `<` on two well-formed date strings. -/
def Date.ltB (a b : Date) : Bool :=
  !(Date.leB b a)

/-- The `last_day` computation of `export_to_json_chunked` (with its leap-year
rule), also the calendar length of the month. -/
def lastDayOfMonth (y m : Nat) : Nat :=
  if m = 1 ∨ m = 3 ∨ m = 5 ∨ m = 7 ∨ m = 8 ∨ m = 10 ∨ m = 12 then 31
  else if m = 4 ∨ m = 6 ∨ m = 9 ∨ m = 11 then 30
  else if y % 4 = 0 ∧ (y % 100 ≠ 0 ∨ y % 400 = 0) then 29
  else 28

/-- The `date` column holds a real calendar date. -/
def ValidDate (dt : Date) : Prop :=
  1 ≤ dt.m ∧ dt.m ≤ 12 ∧ 1 ≤ dt.d ∧ dt.d ≤ lastDayOfMonth dt.y dt.m

instance : DecidablePred ValidDate := fun dt => by
  unfold ValidDate; infer_instance

/-! ### Manifest (`src/sync/manifest.py`) -/

/-- One element of the manifest's `machines[]` array (`add_machine` builds
these; parsed manifests are assumed well-typed, cf. `_validate`). -/
structure MachineEntry where
  machine_name : String
  last_sync : String
  last_record_date : Option Date
  total_records : Nat
  current_file : String
  backups : List String
  data_files : Option (List String)
deriving DecidableEq, Repr

/-- The manifest's underlying `data` dictionary.  `last_updated?` and
`backup_retention_days?` are `Option` because the code reads them with
`data["last_updated"]` (KeyError possible) and `data.get(..., 30)`. -/
structure Manifest where
  version : String
  last_updated? : Option String
  machines : List MachineEntry
  backup_retention_days? : Option Nat
deriving DecidableEq, Repr

/-- `Manifest._create_empty` (the fresh-manifest structure). -/
def emptyManifest (now : String) : Manifest :=
  { version := "1.0", last_updated? := some now, machines := [],
    backup_retention_days? := some 0 }

/-- `Manifest.get_machine`: first entry whose `machine_name` matches. -/
def Manifest.get_machine (m : Manifest) (machine_name : String) : Option MachineEntry :=
  m.machines.find? (fun e => e.machine_name == machine_name)

/-- `Manifest.list_machines`. -/
def Manifest.list_machines (m : Manifest) : List String :=
  m.machines.map (fun e => e.machine_name)

/-- `Manifest.get_data_files`: `data_files` when present and non-empty,
otherwise `[current_file]`. -/
def Manifest.get_data_files (m : Manifest) (machine_name : String) : List String :=
  match m.get_machine machine_name with
  | none => []
  | some e =>
    match e.data_files with
    | some fs => if fs.isEmpty then [e.current_file] else fs
    | none => [e.current_file]

/-- `Manifest.get_last_updated`: `data.get("last_updated", now)` where `now` is
the ambient clock reading. -/
def Manifest.get_last_updated (m : Manifest) (now : String) : String :=
  m.last_updated?.getD now

/-- `Manifest.is_newer_than`: parses both timestamps and compares; any
`ValueError`/`KeyError` is caught and yields `False`. -/
def Manifest.is_newer_than (m : Manifest) (timestamp : String) : Bool :=
  match m.last_updated? with
  | none => false
  | some lu =>
    match parseTs lu, parseTs timestamp with
    | some a, some b => decide (b < a)
    | _, _ => false

/-- The both-sides-present case of the merge loop: keep the entry with the more
recent `last_sync` (ties go to `self`), then overwrite `backups` with the
deduplicated union of both sides. -/
def mergeEntry (sm om : MachineEntry) (ss os : Nat) : MachineEntry :=
  let base := if os ≤ ss then sm else om
  { base with backups := (sm.backups ++ om.backups).dedup }

/-- One iteration of `merge_with`'s machine loop for machine `n`.  `none` means
`datetime.fromisoformat` raised on a `last_sync` (the exception propagates out
of `merge_with`); for names drawn from either manifest at least one side is
present, so the both-absent case is unreachable there. -/
def mergeMachine? (self other : Manifest) (n : String) : Option MachineEntry :=
  match self.get_machine n, other.get_machine n with
  | some sm, some om =>
    match parseTs sm.last_sync, parseTs om.last_sync with
    | some ss, some os => some (mergeEntry sm om ss os)
    | _, _ => none
  | some sm, none => some sm
  | none, some om => some om
  | none, none => none

/-- `Manifest.merge_with`: merge the machine lists over the union of machine
names, take the max of the two `last_updated` instants, keep the local
`backup_retention_days` (default 30).  `none` models an uncaught
`KeyError`/`ValueError` from the timestamp parses. -/
def Manifest.merge_with (self other : Manifest) : Option Manifest :=
  let names := (self.list_machines ++ other.list_machines).dedup
  match names.mapM (mergeMachine? self other), self.last_updated?,
      other.last_updated? with
  | some ms, some luS, some luO =>
    match parseTs luS, parseTs luO with
    | some tS, some tO =>
      some { version := "1.0",
             last_updated? := some (serializeTs (Nat.max tS tO)),
             machines := ms,
             backup_retention_days? := some (self.backup_retention_days?.getD 30) }
    | _, _ => none
  | _, _, _ => none

/-! ### Manifest download (`SyncManager._download_manifest`) -/

/-- Combined outcome of `get_file_content` + `Manifest.from_json` for one read
of the remote manifest file: `.error ()` is any exception (file missing, JSON
invalid, or a required field missing in `_validate`). -/
def downloadManifest (fetched : Except Unit Manifest) (now : String) : Manifest :=
  match fetched with
  | .ok m => m
  | .error _ => emptyManifest now

/-- `SyncManager._download_manifest` seen with its exception behaviour
explicit: the catch-all `except` turns every corrupt or missing read into a
fresh empty manifest, so the call never raises. -/
def downloadManifestE (fetched : Except Unit Manifest) (now : String) :
    Except Unit Manifest :=
  .ok (downloadManifest fetched now)

/-! ### Conflict resolution (`SyncManager._detect_and_resolve_conflict`) -/

/-- The message of the `ConflictError` raised when retries are exhausted
(quotation marks of the original elided). -/
def conflictMsg : String :=
  "Cannot auto-resolve conflict after 3 retries. Remote Gist has newer changes from another device. Run ccu gist pull to sync latest data, then push again. Or use ccu gist push --force to override (may lose data)."

/-- Result of `_detect_and_resolve_conflict`: the manifest to push, a raised
`ConflictError`, or an uncaught exception from `merge_with`. -/
inductive ResolveResult where
  | ok (m : Manifest)
  | conflictError (msg : String)
  | crash
deriving DecidableEq, Repr

/-- The body of `_detect_and_resolve_conflict`, with a structural recursion
counter.  The counter is `4 - retryCount` at every call the source makes: the
recursive call happens only when `retryCount ≤ 2`, so the counter is then at
least 2 and its zero branch is unreachable (`resolveAux_fuel_irrelevant`). -/
def resolveAux (fetch : Nat → Option Manifest) (now : String) :
    Nat → Manifest → Nat → ResolveResult × Nat
  | fuel, localManifest, retryCount =>
    match fetch retryCount with
    | none => (.ok localManifest, 1)
    | some remote =>
      if remote.is_newer_than (localManifest.get_last_updated now) then
        if 3 ≤ retryCount then
          (.conflictError conflictMsg, 1)
        else
          match localManifest.merge_with remote with
          | none => (.crash, 1)
          | some merged =>
            match fuel with
            | 0 => (.crash, 1)
            | fuel' + 1 =>
              let (r, k) := resolveAux fetch now fuel' merged (retryCount + 1)
              (r, k + 1)
      else
        (.ok localManifest, 1)

/-- `SyncManager._detect_and_resolve_conflict`.  `fetch i` is the outcome of the
`i`-th `_download_manifest` call (`none` = the dead defensive branch where the
download itself raises, in which case the local manifest is used as-is).  Also
returns how many downloads were performed, for the push operation trace. -/
def detectAndResolveConflict (fetch : Nat → Option Manifest) (now : String)
    (localManifest : Manifest) (retryCount : Nat) : ResolveResult × Nat :=
  resolveAux fetch now (4 - retryCount) localManifest retryCount

/-- The "local" candidate manifest at the start of attempt `i` of the
resolver: the original local manifest merged with the first `i` fetched
remotes (`none` when a fetch failed or a merge raised). -/
def resolveCandidate (fetch : Nat → Option Manifest) (localManifest : Manifest) :
    Nat → Option Manifest
  | 0 => some localManifest
  | i + 1 =>
    match resolveCandidate fetch localManifest i with
    | none => none
    | some c =>
      match fetch i with
      | none => none
      | some r => c.merge_with r

/-- Whether the character list `sub` is a prefix of `l`. -/
def listStartsWith : List Char → List Char → Bool
  | _, [] => true
  | [], _ :: _ => false
  | c :: cs, d :: ds => c == d && listStartsWith cs ds

/-- Whether the character list `sub` occurs inside `l`. -/
def listContains : List Char → List Char → Bool
  | [], sub => sub.isEmpty
  | c :: cs, sub => listStartsWith (c :: cs) sub || listContains cs sub

/-- Plain substring test, used to state what the conflict message does and does
not mention. -/
def strContains (s sub : String) : Bool :=
  listContains s.data sub.data

/-! ### Usage records (`src/sync/json_export.py`) -/

/-- One row of `usage_records`, with the columns the exporter selects. -/
structure Record where
  session_id : String
  message_uuid : String
  timestamp : String
  model : String
  total_tokens : Nat
  input_tokens : Nat
  output_tokens : Nat
  cache_creation_tokens : Nat
  cache_read_tokens : Nat
  folder : String
  git_branch : String
  version : String
  date : Date
deriving DecidableEq, Repr

/-- `substr(date, 1, 7)`: the year-month of a row. -/
def ymKey (r : Record) : Nat × Nat :=
  (r.date.y, r.date.m)

/-- The `WHERE date >= since_date` restriction of the export queries (absent
`since_date` keeps everything). -/
def filterSince (since : Option Date) (db : List Record) : List Record :=
  match since with
  | none => db
  | some s => db.filter (fun r => Date.leB s r.date)

/-- The `effective_start` computation shared by `_export_period` and
`_export_chunked_by_count`: `since_date` when it is strictly after the period
start. -/
def effectiveStart (since : Option Date) (startD : Date) : Date :=
  match since with
  | none => startD
  | some s => if Date.ltB startD s then s else startD

/-- The record query of `_export_period` / `_export_chunked_by_count`:
`WHERE date >= effective_start AND date <= end_date`, in store order. -/
def periodRecords (db : List Record) (since : Option Date) (startD endD : Date) :
    List Record :=
  let eff := effectiveStart since startD
  db.filter (fun r => Date.leB eff r.date && Date.leB r.date endD)

/-- Recursion worker for `chunksOf`, structural in a fuel counter.  The fuel
starts at the list length; since every step removes at least one record when
`0 < n`, the fuel never runs out on the calls `chunksOf` makes, so the
truncating fuel-exhausted branch is unreachable there. -/
def chunksOfAux (n : Nat) : Nat → List Record → List (List Record)
  | _, [] => []
  | 0, _ :: _ => []
  | fuel + 1, l => l.take n :: chunksOfAux n fuel (l.drop n)

/-- The chunk split of `_export_chunked_by_count`
(`all_records[i : i + max_records]` for `i = 0, max_records, ...`).  For
`n = 0` the source raises instead (see `exportCrash`); that case returns `[]`
here and is never reached through `export_to_json_chunked`. -/
def chunksOf (n : Nat) (l : List Record) : List (List Record) :=
  if n = 0 then [] else chunksOfAux n l.length l

/-- A key of the output dictionary of `export_to_json_chunked`
(`""`, `_YYYY`, `_YYYY_MM`, or `_YYYY_MM_pN`). -/
inductive Suffix where
  | single
  | year (y : Nat)
  | month (y : Nat) (m : Nat)
  | chunk (y : Nat) (m : Nat) (p : Nat)
deriving DecidableEq, Repr

/-- `ESTIMATED_BYTES_PER_RECORD`. -/
def ESTIMATED_BYTES_PER_RECORD : Nat := 550

/-- `MAX_GIST_FILE_SIZE` (7 MB). -/
def MAX_GIST_FILE_SIZE : Nat := 7 * 1024 * 1024

/-- The `SELECT DISTINCT substr(date, 1, 7) ... WHERE date >= since` list of
year-months (the sort order of the SQL `ORDER BY` does not affect any property
below, so distinctness is modelled by `dedup`). -/
def yearMonths (db : List Record) (since : Option Date) : List (Nat × Nat) :=
  ((filterSince since db).map ymKey).dedup

/-- The distinct years of `yearMonths` (`sorted(set(ym[:4] ...))`). -/
def exportYears (db : List Record) (since : Option Date) : List Nat :=
  ((yearMonths db since).map Prod.fst).dedup

/-- `SELECT COUNT(*) ... WHERE substr(date, 1, 4) = year` (note: the source
does not re-apply the `since_date` filter here). -/
def yearCount (db : List Record) (y : Nat) : Nat :=
  (db.filter (fun r => r.date.y == y)).length

/-- `SELECT COUNT(*) ... WHERE substr(date, 1, 7) = year_month`. -/
def monthCount (db : List Record) (p : Nat × Nat) : Nat :=
  (db.filter (fun r => ymKey r == p)).length

/-- The records `_export_period` returns for a year (`None`, i.e. `[]`, when
empty — the caller then emits no bundle). -/
def yearPeriodRecords (db : List Record) (since : Option Date) (y : Nat) :
    List Record :=
  periodRecords db since ⟨y, 1, 1⟩ ⟨y, 12, 31⟩

/-- The records of one month's period query. -/
def monthPeriodRecords (db : List Record) (since : Option Date) (p : Nat × Nat) :
    List Record :=
  periodRecords db since ⟨p.1, p.2, 1⟩ ⟨p.1, p.2, lastDayOfMonth p.1 p.2⟩

/-- The bundles emitted for one year by the loop body of
`export_to_json_chunked`: the whole year if its (unfiltered) count fits,
otherwise per month, a month being chunked by record count when its count does
not fit either. -/
def yearBundles (db : List Record) (since : Option Date) (maxPerFile : Nat)
    (y : Nat) : List (Suffix × List Record) :=
  if yearCount db y ≤ maxPerFile then
    let recs := yearPeriodRecords db since y
    if recs.isEmpty then [] else [(Suffix.year y, recs)]
  else
    ((yearMonths db since).filter (fun p => p.1 == y)).flatMap (fun p =>
      if monthCount db p ≤ maxPerFile then
        let recs := monthPeriodRecords db since p
        if recs.isEmpty then [] else [(Suffix.month p.1 p.2, recs)]
      else
        ((chunksOf maxPerFile (monthPeriodRecords db since p)).enum.map
          (fun ic => (Suffix.chunk p.1 p.2 (ic.1 + 1), ic.2))))

/-- Whether `export_to_json_chunked` raises `ZeroDivisionError`: the split path
reaches `_export_chunked_by_count` with a non-empty month and
`max_records_per_file = 0` (i.e. `max_file_size < 550`). -/
def exportCrash (db : List Record) (since : Option Date) (maxFileSize : Nat) :
    Bool :=
  let flt := filterSince since db
  let maxPerFile := maxFileSize / ESTIMATED_BYTES_PER_RECORD
  !decide (flt.length * ESTIMATED_BYTES_PER_RECORD ≤ maxFileSize) &&
    !(yearMonths db since).isEmpty &&
    (maxPerFile == 0) &&
    (exportYears db since).any (fun y =>
      !decide (yearCount db y ≤ maxPerFile) &&
        ((yearMonths db since).filter (fun p => p.1 == y)).any (fun p =>
          !decide (monthCount db p ≤ maxPerFile) &&
            !(monthPeriodRecords db since p).isEmpty))

/-- The result dictionary of `export_to_json_chunked` on the assumption that no
exception is raised: a single full bundle when the size estimate fits (or when
there is nothing to split), else the per-year bundles, falling back to a single
bundle when the split produced nothing. -/
def exportChunkedCore (db : List Record) (since : Option Date)
    (maxFileSize : Nat) : List (Suffix × List Record) :=
  let flt := filterSince since db
  if flt.length * ESTIMATED_BYTES_PER_RECORD ≤ maxFileSize then
    [(Suffix.single, flt)]
  else
    let maxPerFile := maxFileSize / ESTIMATED_BYTES_PER_RECORD
    if (yearMonths db since).isEmpty then [(Suffix.single, flt)]
    else
      let result :=
        (exportYears db since).flatMap (yearBundles db since maxPerFile)
      if result.isEmpty then [(Suffix.single, flt)] else result

/-- `export_to_json_chunked` (record content of each emitted bundle;
`none` models the raised `ZeroDivisionError`). -/
def export_to_json_chunked (db : List Record) (since : Option Date)
    (maxFileSize : Nat) : Option (List (Suffix × List Record)) :=
  if exportCrash db since maxFileSize then none
  else some (exportChunkedCore db since maxFileSize)

/-! ### Deduplicating import (`src/sync/json_import.py`)

The target table's schema lives in `src/storage/snapshot_db.py`, which is not
part of the synchronization sources; its uniqueness constraint is modelled from
the spec below (`storeHasKey`). -/

/-- One row as written by the importer (`date` and the token defaults applied,
`message_type` fixed to `"assistant"`). -/
structure StoredRecord where
  session_id : String
  message_uuid : String
  timestamp : String
  model : String
  total_tokens : Nat
  input_tokens : Nat
  output_tokens : Nat
  cache_creation_tokens : Nat
  cache_read_tokens : Nat
  folder : String
  git_branch : String
  version : String
  date : String
  message_type : String
deriving DecidableEq, Repr

/-- One element of the bundle's `records[]` array as parsed from JSON: every
key may be absent. -/
structure RecordJson where
  session_id? : Option String
  message_uuid? : Option String
  timestamp? : Option String
  model? : Option String
  total_tokens? : Option Nat
  input_tokens? : Option Nat
  output_tokens? : Option Nat
  cache_creation_tokens? : Option Nat
  cache_read_tokens? : Option Nat
  folder? : Option String
  git_branch? : Option String
  version? : Option String
  date? : Option String
deriving DecidableEq, Repr

/-- The top-level fields of an export bundle that the importer reads. -/
structure BundleJson where
  machine_name? : Option String
  export_date? : Option String
  records? : Option (List RecordJson)
deriving DecidableEq, Repr

/-- Modelled from the spec: the Record Store's natural uniqueness constraint.
`src/storage/snapshot_db.py` (which declares the `usage_records` table and its
UNIQUE constraint) is not among the synchronization sources; per the spec's
data model, `message_uuid` is the natural uniqueness key, so an insert
violates the constraint exactly when the store already holds a row with the
same `message_uuid`. -/
def storeHasKey (store : List StoredRecord) (uuid : String) : Bool :=
  store.any (fun r => r.message_uuid == uuid)

/-- Outcome of one record's insert attempt. -/
inductive InsOutcome where
  | new
  | dup
  | err
deriving DecidableEq, Repr

/-- The per-record body of the import loop: a missing required key raises
`KeyError` (caught, counted as error); a uniqueness violation raises
`IntegrityError` (caught, counted as duplicate); otherwise the row is inserted
with the `.get(...)` defaults applied. -/
def tryImportRecord (store : List StoredRecord) (r : RecordJson) :
    InsOutcome × List StoredRecord :=
  match r.session_id?, r.message_uuid?, r.timestamp?, r.model?,
      r.total_tokens?, r.input_tokens?, r.output_tokens? with
  | some sid, some mu, some ts, some mdl, some tt, some it, some ot =>
    if storeHasKey store mu then (.dup, store)
    else
      let row : StoredRecord :=
        { session_id := sid, message_uuid := mu, timestamp := ts,
          model := mdl, total_tokens := tt, input_tokens := it,
          output_tokens := ot,
          cache_creation_tokens := r.cache_creation_tokens?.getD 0,
          cache_read_tokens := r.cache_read_tokens?.getD 0,
          folder := r.folder?.getD "", git_branch := r.git_branch?.getD "",
          version := r.version?.getD "",
          date := r.date?.getD (ts.take 10), message_type := "assistant" }
      (.new, store ++ [row])
  | _, _, _, _, _, _, _ => (.err, store)

/-- The `stats` dictionary of `import_from_json`. -/
structure ImportStats where
  new_records : Nat
  duplicate_records : Nat
  errors : Nat
deriving DecidableEq, Repr

/-- Bump the stats counter matching one record's outcome. -/
def bumpStats (s : ImportStats) : InsOutcome → ImportStats
  | .new => { s with new_records := s.new_records + 1 }
  | .dup => { s with duplicate_records := s.duplicate_records + 1 }
  | .err => { s with errors := s.errors + 1 }

/-- The record loop of `import_from_json` inside the write transaction; the
returned store is the state the final `conn.commit()` makes durable. -/
def importLoop (store : List StoredRecord) (stats : ImportStats) :
    List RecordJson → ImportStats × List StoredRecord
  | [] => (stats, store)
  | r :: rs =>
    let (o, store') := tryImportRecord store r
    importLoop store' (bumpStats stats o) rs

/-- The seven `required_record_fields` of the dry-run validation (the same
keys whose absence makes the non-dry insert raise `KeyError`). -/
def requiredRecordFieldsPresent (r : RecordJson) : Bool :=
  r.session_id?.isSome && r.message_uuid?.isSome && r.timestamp?.isSome &&
    r.model?.isSome && r.total_tokens?.isSome && r.input_tokens?.isSome &&
    r.output_tokens?.isSome

/-- `import_from_json`: `none` is the `ValueError` raised when a required
top-level field is missing; otherwise the statistics and the committed store.
(The subsequent sync-metadata bookkeeping touches a different table and is not
part of the record store.) -/
def import_from_json (b : BundleJson) (store : List StoredRecord)
    (dry_run : Bool) : Option (ImportStats × List StoredRecord) :=
  if b.machine_name?.isNone || b.export_date?.isNone || b.records?.isNone then
    none
  else
    let records := b.records?.getD []
    if dry_run then
      some (records.foldl
        (fun s r =>
          if requiredRecordFieldsPresent r then
            { s with new_records := s.new_records + 1 }
          else
            { s with errors := s.errors + 1 })
        ⟨0, 0, 0⟩, store)
    else
      some (importLoop store ⟨0, 0, 0⟩ records)

/-! ### Push orchestration (`src/sync/sync_manager.py`) -/

/-- `Manifest.add_machine`: replace the machine's entry, preserving its
previous `backups`, with a fresh `last_sync`; bump `last_updated`.  An empty
`data_files` list is falsy in `if data_files:`, so the key is then omitted. -/
def Manifest.add_machine (m : Manifest) (now : String) (machine_name : String)
    (current_file : String) (total_records : Nat)
    (last_record_date : Option Date) (data_files : Option (List String)) :
    Manifest :=
  let existing_backups :=
    match m.get_machine machine_name with
    | some e => e.backups
    | none => []
  let data_files' :=
    match data_files with
    | some fs => if fs.isEmpty then none else some fs
    | none => none
  let entry : MachineEntry :=
    { machine_name := machine_name, last_sync := now,
      last_record_date := last_record_date, total_records := total_records,
      current_file := current_file, backups := existing_backups,
      data_files := data_files' }
  { m with
    machines := m.machines.filter (fun e => e.machine_name != machine_name)
      ++ [entry],
    last_updated? := some now }

/-- `Manifest.add_backup`: prepend the backup to the machine's list unless
already present; `none` is the `ValueError` when the machine is unknown.
(The source mutates the entry `get_machine` returned; with unique machine
names that is the entry selected here.) -/
def Manifest.add_backup? (m : Manifest) (machine_name backup : String)
    (now : String) : Option Manifest :=
  match m.get_machine machine_name with
  | none => none
  | some _ =>
    some { m with
      machines := m.machines.map (fun e =>
        if e.machine_name == machine_name then
          (if backup ∈ e.backups then e else { e with backups := backup :: e.backups })
        else e),
      last_updated? := some now }

/-- `Manifest.remove_backup` (no-op when the machine is unknown). -/
def Manifest.remove_backup (m : Manifest) (machine_name backup : String)
    (now : String) : Manifest :=
  match m.get_machine machine_name with
  | none => m
  | some _ =>
    { m with
      machines := m.machines.map (fun e =>
        if e.machine_name == machine_name then
          { e with backups := e.backups.filter (fun b => b != backup) }
        else e),
      last_updated? := some now }

/-- The date embedded in a backup filename
(`split("_backup_")[1]`, `.json` stripped, `strptime("%Y%m%d")`);
`none` when the filename does not follow the convention. -/
def parseBackupDate (filename : String) : Option Date :=
  match (filename.splitOn "_backup_").get? 1 with
  | none => none
  | some s0 =>
    let s := s0.replace ".json" ""
    if s.length = 8 && s.data.all Char.isDigit then
      match (s.take 4).toNat?, ((s.drop 4).take 2).toNat?, (s.drop 6).toNat? with
      | some y, some mo, some d =>
        if 1 ≤ mo && mo ≤ 12 && 1 ≤ d && d ≤ lastDayOfMonth y mo then
          some ⟨y, mo, d⟩
        else none
      | _, _, _ => none
    else none

/-- `Manifest.get_old_backups` for the given cutoff date
(`now - timedelta(days=retention_days)`): the machine's backups whose embedded
date parses and is strictly before the cutoff. -/
def Manifest.get_old_backups (m : Manifest) (machine_name : String)
    (cutoff : Date) : List String :=
  match m.get_machine machine_name with
  | none => []
  | some e =>
    e.backups.filter (fun b =>
      match parseBackupDate b with
      | some d => Date.ltB d cutoff
      | none => false)

/-- Two-digit month rendering used in the filename suffixes. -/
def pad2 (n : Nat) : String :=
  if n < 10 then "0" ++ toString n else toString n

/-- The textual filename suffix of a bundle key. -/
def suffixStr : Suffix → String
  | .single => ""
  | .year y => "_" ++ toString y
  | .month y m => "_" ++ toString y ++ "_" ++ pad2 m
  | .chunk y m p => "_" ++ toString y ++ "_" ++ pad2 m ++ "_p" ++ toString p

/-- The parts of an export bundle that `push` reads. -/
structure ExportBundle where
  machine_name : String
  export_date : String
  records : List Record
  data_range_newest : Option Date
  stats_total_records : Nat
deriving DecidableEq, Repr

/-- One call to the Gist client, as recorded in the push trace.  File contents
are elided; `updateGist` lists the filenames written and the filenames deleted
(content `None`). -/
inductive RemoteOp where
  | findGist
  | createGist
  | getFile (gistId filename : String)
  | updateGist (gistId : String) (puts deletes : List String)
deriving DecidableEq, Repr

/-- The environment a push runs against: machine identity, ambient clock, and
the responses of the remote container.  `remoteFetch i` is the outcome of the
`i`-th read of the manifest file; `cutoffFor k` is
`datetime.now(utc) - timedelta(days=k)` as a date. -/
structure PushEnv where
  machineName : String
  now : String
  today : String
  gistId0 : Option String
  findResult : Option String
  newGistId : String
  remoteFetch : Nat → Except Unit Manifest
  currentFileContent : Option String
  backupExists : Bool
  cutoffFor : Nat → Date

/-- `SyncManager._create_backup`: download the current file, skip when today's
backup already exists, otherwise upload the copy and record it in the
manifest; every failure degrades to `False` (no backup). -/
def createBackup (env : PushEnv) (gistId current_filename : String)
    (manifest : Manifest) : Bool × Manifest × List RemoteOp :=
  let ops0 := [RemoteOp.getFile gistId current_filename]
  match env.currentFileContent with
  | none => (false, manifest, ops0)
  | some _ =>
    let backup_filename :=
      current_filename.replace ".json" ("_backup_" ++ env.today ++ ".json")
    let ops1 := ops0 ++ [RemoteOp.getFile gistId backup_filename]
    if env.backupExists then (false, manifest, ops1)
    else
      let ops2 := ops1 ++ [RemoteOp.updateGist gistId [backup_filename] []]
      match manifest.add_backup? env.machineName backup_filename env.now with
      | none => (false, manifest, ops2)
      | some m' => (true, m', ops2)

/-- `SyncManager._delete_old_backups`: one deletion call for all files, then
the manifest entries are removed. -/
def deleteOldBackups (gistId : String) (backups : List String)
    (machine_name : String) (manifest : Manifest) (now : String) :
    Manifest × List RemoteOp :=
  if backups.isEmpty then (manifest, [])
  else
    (backups.foldl (fun m b => m.remove_backup machine_name b now) manifest,
      [RemoteOp.updateGist gistId [] backups])

/-- Outcome of `SyncManager.push`. -/
inductive PushResult where
  | nothingToSync
  | success (exported_records files_uploaded : Nat)
  | conflictError (msg : String)
  | crash
deriving DecidableEq, Repr

/-- `Manifest.FILENAME`. -/
def MANIFEST_FILENAME : String := "manifest.json"

/-- `SyncManager.push`, given the chunked-export result, together with the
trace of every remote-container call it performs.  The local sync-metadata
update of step 12 touches only the local database and leaves no remote
operation. -/
def push (env : PushEnv) (chunked_exports : List (Suffix × ExportBundle))
    (force create_backup skip_conflict_check : Bool) :
    PushResult × List RemoteOp :=
  let total_records := (chunked_exports.map (fun se => se.2.records.length)).sum
  if total_records == 0 && !force then (.nothingToSync, [])
  else
    let is_chunked := decide (1 < chunked_exports.length) ||
      !(chunked_exports.any (fun se => se.1 == Suffix.single))
    let (gistId, ops1) : String × List RemoteOp :=
      match env.gistId0 with
      | some g => (g, [])
      | none =>
        match env.findResult with
        | some g => (g, [.findGist])
        | none => (env.newGistId, [.findGist, .createGist])
    let manifest0 := downloadManifest (env.remoteFetch 0) env.now
    let ops2 := ops1 ++ [.getFile gistId MANIFEST_FILENAME]
    let old_data_files := manifest0.get_data_files env.machineName
    let base_filename := "usage_data_" ++ env.machineName
    let data_files := chunked_exports.map
      (fun se => base_filename ++ suffixStr se.1 ++ ".json")
    match hfe : chunked_exports with
    | [] => (.crash, ops2)
    | first_export :: _ =>
      let primary_file := (base_filename ++ suffixStr first_export.1 ++ ".json")
      let newest_date := chunked_exports.foldl
        (fun acc se =>
          match se.2.data_range_newest with
          | none => acc
          | some d =>
            match acc with
            | none => some d
            | some nd => if Date.ltB nd d then some d else acc)
        none
      let total_stats_records :=
        (chunked_exports.map (fun se => se.2.stats_total_records)).sum
      let manifest1 := manifest0.add_machine env.now env.machineName
        primary_file total_stats_records newest_date
        (if is_chunked then some data_files else none)
      let resolveOut : ResolveResult × List RemoteOp :=
        if !skip_conflict_check then
          let (res, k) := detectAndResolveConflict
            (fun i => some (downloadManifest (env.remoteFetch (i + 1)) env.now))
            env.now manifest1 0
          (res, List.replicate k (RemoteOp.getFile gistId MANIFEST_FILENAME))
        else (ResolveResult.ok manifest1, [])
      match resolveOut with
      | (.conflictError msg, opsR) => (.conflictError msg, ops2 ++ opsR)
      | (.crash, opsR) => (.crash, ops2 ++ opsR)
      | (.ok manifest2, opsR) =>
        let ops3 := ops2 ++ opsR
        let (_, manifest3, ops4) :=
          if create_backup && !old_data_files.isEmpty then
            let (ok, m', opsB) :=
              createBackup env gistId (old_data_files.headD "") manifest2
            (ok, m', ops3 ++ opsB)
          else (false, manifest2, ops3)
        let uploadOps := chunked_exports.map
          (fun se =>
            RemoteOp.updateGist gistId
              [base_filename ++ suffixStr se.1 ++ ".json"] [])
        let ops5 := ops4 ++ uploadOps
        let files_to_delete :=
          (old_data_files.filter (fun f => f ∉ data_files)).dedup
        let ops6 := ops5 ++
          (if files_to_delete.isEmpty then []
           else [RemoteOp.updateGist gistId [] files_to_delete])
        let ops7 := ops6 ++ [RemoteOp.updateGist gistId [MANIFEST_FILENAME] []]
        let retention := manifest3.backup_retention_days?.getD 30
        let old_backups :=
          manifest3.get_old_backups env.machineName (env.cutoffFor retention)
        let (_, ops8) :=
          if old_backups.isEmpty then (manifest3, ops7)
          else
            let (m', opsD) := deleteOldBackups gistId old_backups
              env.machineName manifest3 env.now
            (m', ops7 ++ opsD)
        (.success total_records chunked_exports.length, ops8)

/-! ## Theorems -/

/-- C10: `Manifest.is_newer_than` is total — on every manifest and every
timestamp string it returns a Boolean — and whenever the manifest's
`last_updated` is absent, or either timestamp fails to parse as an ISO-8601
instant, it returns `false`, so a malformed timestamp never triggers conflict
detection. -/
theorem is_newer_than_total_and_false_on_bad_parse :
    (∀ (m : Manifest) (ts : String),
      m.is_newer_than ts = true ∨ m.is_newer_than ts = false) ∧
    (∀ (m : Manifest) (ts : String),
      (m.last_updated? = none ∨
        (∃ lu, m.last_updated? = some lu ∧ parseTs lu = none) ∨
        parseTs ts = none) →
      m.is_newer_than ts = false) := by
  constructor
  · intro m ts
    cases m.is_newer_than ts
    · right; rfl
    · left; rfl
  · intro m ts h
    unfold Manifest.is_newer_than
    rcases h with h | ⟨lu, hlu, hp⟩ | h
    · rw [h]
    · simp only [hlu, hp]
    · cases hm : m.last_updated? with
      | none => rfl
      | some lu =>
        simp only [h]
        cases parseTs lu <;> rfl

/-- C10 witness: a manifest whose `last_updated` is not a well-formed instant
is never "newer" than anything. -/
theorem is_newer_than_bad_parse_witness :
    Manifest.is_newer_than
      { version := "1.0", last_updated? := some "2024-not-a-date",
        machines := [], backup_retention_days? := some 0 } "iii" = false :=
  is_newer_than_total_and_false_on_bad_parse.2 _ "iii"
    (Or.inr (Or.inl ⟨"2024-not-a-date", rfl, by decide⟩))

/-- C8 counterexample: two consecutive corrupt reads of the remote manifest
file.  By the claim the second one should raise a hard `ManifestError`; in the
code the catch-all `except` of `_download_manifest` returns a fresh empty
manifest instead (it never raises, and nothing in the repository ever raises
`ManifestError`). -/
theorem download_manifest_subsequent_corrupt_read_counterexample :
    ((List.replicate 2 (Except.error () : Except Unit Manifest)).map
        (fun r => downloadManifestE r "iiiii")).getLast? =
      some (Except.ok (emptyManifest "iiiii")) ∧
    downloadManifestE (Except.error ()) "iiiii" ≠ Except.error () := by
  constructor
  · rfl
  · intro h
    simp [downloadManifestE] at h

/-- C8 (amended): a remote manifest file that is missing, not valid JSON, or
missing required fields is treated as "no manifest yet" on every read — first
contact and subsequent reads alike; `_download_manifest` returns a fresh empty
manifest and never raises. -/
theorem download_manifest_corrupt_always_empty
    (r : Except Unit Manifest) (now : String) :
    (∃ m, downloadManifestE r now = .ok m) ∧
    (r.isOk = false → downloadManifestE r now = .ok (emptyManifest now)) := by
  constructor
  · exact ⟨downloadManifest r now, rfl⟩
  · intro h
    cases r with
    | ok m => simp [Except.isOk, Except.toBool] at h
    | error e => rfl

/-- C8 witness: a corrupt read yields the empty manifest. -/
theorem download_manifest_corrupt_always_empty_witness :
    downloadManifestE (Except.error ()) "iii" = .ok (emptyManifest "iii") :=
  (download_manifest_corrupt_always_empty (Except.error ()) "iii").2 (by rfl)

/-! Helper lemmas about `merge_with`. -/

theorem get_machine_name {m : Manifest} {n : String} {e : MachineEntry}
    (h : m.get_machine n = some e) : e.machine_name = n := by
  unfold Manifest.get_machine at h
  have hp := List.find?_some h
  simpa using hp

theorem mem_list_machines_of_get_machine {m : Manifest} {n : String}
    {e : MachineEntry} (h : m.get_machine n = some e) : n ∈ m.list_machines := by
  have hname := get_machine_name h
  unfold Manifest.get_machine at h
  have hmem := List.mem_of_find?_eq_some h
  unfold Manifest.list_machines
  exact List.mem_map.mpr ⟨e, hmem, hname⟩

theorem get_machine_isSome_of_mem {m : Manifest} {n : String}
    (h : n ∈ m.list_machines) : (m.get_machine n).isSome := by
  unfold Manifest.list_machines at h
  obtain ⟨e, hmem, hname⟩ := List.mem_map.mp h
  unfold Manifest.get_machine
  exact List.find?_isSome.mpr ⟨e, hmem, by simp [hname]⟩

theorem mergeMachine?_machine_name {self other : Manifest} {n : String}
    {e : MachineEntry} (h : mergeMachine? self other n = some e) :
    e.machine_name = n := by
  cases hs : self.get_machine n with
  | some sm =>
    cases ho : other.get_machine n with
    | some om =>
      cases hps : parseTs sm.last_sync with
      | some ss =>
        cases hpo : parseTs om.last_sync with
        | some os =>
          simp only [mergeMachine?, hs, ho, hps, hpo, Option.some.injEq] at h
          rw [← h]
          unfold mergeEntry
          by_cases hc : os ≤ ss
          · simp only [hc, if_pos]
            exact get_machine_name hs
          · simp only [hc, if_neg, not_false_iff]
            exact get_machine_name ho
        | none => simp [mergeMachine?, hs, ho, hps, hpo] at h
      | none => simp [mergeMachine?, hs, ho, hps] at h
    | none =>
      simp only [mergeMachine?, hs, ho, Option.some.injEq] at h
      rw [← h]
      exact get_machine_name hs
  | none =>
    cases ho : other.get_machine n with
    | some om =>
      simp only [mergeMachine?, hs, ho, Option.some.injEq] at h
      rw [← h]
      exact get_machine_name ho
    | none => simp [mergeMachine?, hs, ho] at h

theorem mergeMachine?_isSome {self other : Manifest} {n : String}
    (hn : n ∈ self.list_machines ∨ n ∈ other.list_machines)
    (hparse : ∀ e, e ∈ self.machines ∨ e ∈ other.machines →
      (parseTs e.last_sync).isSome) :
    (mergeMachine? self other n).isSome := by
  cases hs : self.get_machine n with
  | some sm =>
    cases ho : other.get_machine n with
    | some om =>
      have hsm : sm ∈ self.machines := List.mem_of_find?_eq_some hs
      have hom : om ∈ other.machines := List.mem_of_find?_eq_some ho
      obtain ⟨ss, hss⟩ := Option.isSome_iff_exists.mp (hparse sm (Or.inl hsm))
      obtain ⟨os, hos⟩ := Option.isSome_iff_exists.mp (hparse om (Or.inr hom))
      simp [mergeMachine?, hs, ho, hss, hos]
    | none => simp [mergeMachine?, hs, ho]
  | none =>
    cases ho : other.get_machine n with
    | some om => simp [mergeMachine?, hs, ho]
    | none =>
      exfalso
      rcases hn with hn | hn
      · have := get_machine_isSome_of_mem hn
        rw [hs] at this
        exact absurd this (by simp)
      · have := get_machine_isSome_of_mem hn
        rw [ho] at this
        exact absurd this (by simp)

theorem mapM_option_isSome {α β : Type} (f : α → Option β) :
    ∀ l : List α, (∀ a ∈ l, (f a).isSome) → ∃ bs, l.mapM f = some bs := by
  intro l
  induction l with
  | nil => exact fun _ => ⟨[], rfl⟩
  | cons a t ih =>
    intro h
    obtain ⟨b, hb⟩ := Option.isSome_iff_exists.mp (h a (List.mem_cons_self a t))
    obtain ⟨bs, hbs⟩ := ih (fun x hx => h x (List.mem_cons_of_mem a hx))
    refine ⟨b :: bs, ?_⟩
    rw [List.mapM_cons, hb, hbs]
    rfl

theorem find?_of_mapM {f : String → Option MachineEntry}
    (hf : ∀ n e, f n = some e → e.machine_name = n) :
    ∀ (names : List String) (ms : List MachineEntry), names.mapM f = some ms →
      ∀ X e, X ∈ names → f X = some e →
        ms.find? (fun x => x.machine_name == X) = some e := by
  intro names
  induction names with
  | nil => intro ms _ X e hX; exact absurd hX (List.not_mem_nil X)
  | cons n t ih =>
    intro ms hms X e hX hfX
    rw [List.mapM_cons] at hms
    cases hfn : f n with
    | none => rw [hfn] at hms; exact absurd hms (by simp)
    | some b =>
      rw [hfn] at hms
      cases hmt : t.mapM f with
      | none => rw [hmt] at hms; exact absurd hms (by simp)
      | some bs =>
        rw [hmt] at hms
        have hms' : b :: bs = ms := by
          simpa using hms
        subst hms'
        by_cases hbX : b.machine_name = X
        · have hXn : X = n := hbX ▸ hf n b hfn
          subst hXn
          rw [hfX] at hfn
          rw [List.find?_cons_of_pos _ (by simp [hbX])]
          exact congrArg some (Option.some_injective _ hfn).symm
        · rw [List.find?_cons_of_neg _ (by simp [hbX])]
          have hXt : X ∈ t := by
            rcases List.mem_cons.mp hX with rfl | hXt
            · exact absurd (hf X b hfn) hbX
            · exact hXt
          exact ih bs hmt X e hXt hfX

theorem merge_with_machines {self other : Manifest} {luS luO : String}
    {tS tO : Nat} {ms : List MachineEntry}
    (hluS : self.last_updated? = some luS) (htS : parseTs luS = some tS)
    (hluO : other.last_updated? = some luO) (htO : parseTs luO = some tO)
    (hms : ((self.list_machines ++ other.list_machines).dedup).mapM
      (mergeMachine? self other) = some ms) :
    self.merge_with other = some
      { version := "1.0",
        last_updated? := some (serializeTs (Nat.max tS tO)),
        machines := ms,
        backup_retention_days? := some (self.backup_retention_days?.getD 30) } := by
  unfold Manifest.merge_with
  simp only [hms, hluS, htS, hluO, htO]

/-- C1: for manifests `L` (local) and `R` (remote) that both contain machine
`X` (with well-formed sync timestamps throughout), `merge_with` yields a
manifest whose entry for `X` is the entry of whichever input has the more
recent `last_sync`, except that its `backups` are the deduplicated set union
of both inputs' backups; the merged `last_updated` is the maximum of the two
inputs' `last_updated` instants, and `backup_retention_days` is taken from
`L`. -/
theorem merge_with_same_machine (L R : Manifest) (X : String)
    (eL eR : MachineEntry) (tL tR : Nat) (luL luR : String) (uL uR rd : Nat)
    (heL : L.get_machine X = some eL) (heR : R.get_machine X = some eR)
    (htL : parseTs eL.last_sync = some tL) (htR : parseTs eR.last_sync = some tR)
    (hne : tL ≠ tR)
    (hluL : L.last_updated? = some luL) (huL : parseTs luL = some uL)
    (hluR : R.last_updated? = some luR) (huR : parseTs luR = some uR)
    (hrd : L.backup_retention_days? = some rd)
    (hparse : (L.machines ++ R.machines).all
      (fun e => (parseTs e.last_sync).isSome) = true) :
    ∃ M, L.merge_with R = some M ∧
      M.get_machine X = some
        { (if tR < tL then eL else eR) with
          backups := (eL.backups ++ eR.backups).dedup } ∧
      ((eL.backups ++ eR.backups).dedup).Nodup ∧
      ((eL.backups ++ eR.backups).dedup).toFinset
        = eL.backups.toFinset ∪ eR.backups.toFinset ∧
      (∃ lu, M.last_updated? = some lu ∧ parseTs lu = some (Nat.max uL uR)) ∧
      M.backup_retention_days? = some rd := by
  have hparse' : ∀ e, e ∈ L.machines ∨ e ∈ R.machines →
      (parseTs e.last_sync).isSome :=
    fun e he => List.all_eq_true.mp hparse e (List.mem_append.mpr he)
  obtain ⟨ms, hms⟩ := mapM_option_isSome (mergeMachine? L R)
    ((L.list_machines ++ R.list_machines).dedup)
    (fun n hn => by
      rw [List.mem_dedup, List.mem_append] at hn
      exact mergeMachine?_isSome hn hparse')
  refine ⟨_, merge_with_machines hluL huL hluR huR hms, ?_, List.nodup_dedup _,
    ?_, ⟨_, rfl, parseTs_serializeTs _⟩, by simp [hrd]⟩
  · have hX : X ∈ (L.list_machines ++ R.list_machines).dedup := by
      rw [List.mem_dedup, List.mem_append]
      exact Or.inl (mem_list_machines_of_get_machine heL)
    have hfX : mergeMachine? L R X = some
        { (if tR < tL then eL else eR) with
          backups := (eL.backups ++ eR.backups).dedup } := by
      simp only [mergeMachine?, heL, heR, htL, htR, Option.some.injEq]
      unfold mergeEntry
      by_cases hc : tR ≤ tL
      · have hlt : tR < tL := lt_of_le_of_ne hc (fun hh => hne hh.symm)
        simp [hc, hlt]
      · have hlt : ¬ tR < tL := fun hh => hc (le_of_lt hh)
        simp [hc, hlt]
    exact find?_of_mapM (fun n e he => mergeMachine?_machine_name he)
      _ ms hms X _ hX hfX
  · ext a
    simp [List.mem_toFinset, List.mem_dedup, List.mem_append]

/-- C1 witness: local machine entry synced at instant 5, remote at 3; the
local entry wins, backups are unioned, the merged `last_updated` is the max
instant 9, and the retention setting is the local 14. -/
theorem merge_with_same_machine_witness :
    ∃ M, Manifest.merge_with
        ⟨"1.0", some "iiiiiii",
          [⟨"X", "iiiii", none, 10, "fL.json", ["b1", "b2"], none⟩], some 14⟩
        ⟨"1.0", some "iiiiiiiii",
          [⟨"X", "iii", none, 4, "fR.json", ["b2", "b3"], none⟩], some 30⟩
        = some M ∧
      M.get_machine "X" = some
        { (if 3 < 5 then
            (⟨"X", "iiiii", none, 10, "fL.json", ["b1", "b2"], none⟩ : MachineEntry)
          else
            ⟨"X", "iii", none, 4, "fR.json", ["b2", "b3"], none⟩) with
          backups := ((["b1", "b2"] ++ ["b2", "b3"] : List String)).dedup } ∧
      ((["b1", "b2"] ++ ["b2", "b3"] : List String).dedup).Nodup ∧
      ((["b1", "b2"] ++ ["b2", "b3"] : List String).dedup).toFinset
        = (["b1", "b2"] : List String).toFinset ∪ (["b2", "b3"] : List String).toFinset ∧
      (∃ lu, M.last_updated? = some lu ∧ parseTs lu = some (Nat.max 7 9)) ∧
      M.backup_retention_days? = some 14 :=
  merge_with_same_machine _ _ "X" _ _ 5 3 "iiiiiii" "iiiiiiiii" 7 9 14
    (by decide) (by decide) (by decide) (by decide) (by decide)
    rfl (by decide) rfl (by decide) rfl (by decide)

/-- C6: merging manifest `A` that holds only machine `X` with manifest `B`
that holds only machine `Y` (with `X ≠ Y`) yields, in either merge order, a
manifest containing both machines' entries unchanged. -/
theorem merge_with_disjoint_machines (A B : Manifest) (X Y : String)
    (ax bx : MachineEntry) (luA luB : String) (tA tB : Nat)
    (hA : A.machines = [ax]) (hax : ax.machine_name = X)
    (hB : B.machines = [bx]) (hbx : bx.machine_name = Y)
    (hXY : X ≠ Y)
    (hluA : A.last_updated? = some luA) (htA : parseTs luA = some tA)
    (hluB : B.last_updated? = some luB) (htB : parseTs luB = some tB) :
    ∃ M M', A.merge_with B = some M ∧ B.merge_with A = some M' ∧
      M.get_machine X = some ax ∧ M.get_machine Y = some bx ∧
      M'.get_machine X = some ax ∧ M'.get_machine Y = some bx := by
  have hgAX : A.get_machine X = some ax := by
    simp [Manifest.get_machine, hA, hax]
  have hgAY : A.get_machine Y = none := by
    simp [Manifest.get_machine, hA, hax, hXY]
  have hgBY : B.get_machine Y = some bx := by
    simp [Manifest.get_machine, hB, hbx]
  have hgBX : B.get_machine X = none := by
    simp [Manifest.get_machine, hB, hbx]
    exact fun h => absurd h.symm hXY
  have hlmA : A.list_machines = [X] := by
    simp [Manifest.list_machines, hA, hax]
  have hlmB : B.list_machines = [Y] := by
    simp [Manifest.list_machines, hB, hbx]
  have hnamesAB : (A.list_machines ++ B.list_machines).dedup = [X, Y] := by
    rw [hlmA, hlmB]
    simp [List.dedup_cons_of_not_mem, hXY]
  have hnamesBA : (B.list_machines ++ A.list_machines).dedup = [Y, X] := by
    rw [hlmA, hlmB]
    have : Y ≠ X := fun h => hXY h.symm
    simp [List.dedup_cons_of_not_mem, this]
  have hmX : mergeMachine? A B X = some ax := by
    simp [mergeMachine?, hgAX, hgBX]
  have hmY : mergeMachine? A B Y = some bx := by
    simp [mergeMachine?, hgAY, hgBY]
  have hmX' : mergeMachine? B A X = some ax := by
    simp [mergeMachine?, hgAX, hgBX]
  have hmY' : mergeMachine? B A Y = some bx := by
    simp [mergeMachine?, hgAY, hgBY]
  have hmapAB : ((A.list_machines ++ B.list_machines).dedup).mapM
      (mergeMachine? A B) = some [ax, bx] := by
    rw [hnamesAB]
    rw [List.mapM_cons, hmX, List.mapM_cons, hmY, List.mapM_nil]
    rfl
  have hmapBA : ((B.list_machines ++ A.list_machines).dedup).mapM
      (mergeMachine? B A) = some [bx, ax] := by
    rw [hnamesBA]
    rw [List.mapM_cons, hmY', List.mapM_cons, hmX', List.mapM_nil]
    rfl
  refine ⟨_, _, merge_with_machines hluA htA hluB htB hmapAB,
    merge_with_machines hluB htB hluA htA hmapBA, ?_, ?_, ?_, ?_⟩
  · simp [Manifest.get_machine, hax]
  · simp [Manifest.get_machine, hax, hbx, hXY]
  · have : Y ≠ X := fun h => hXY h.symm
    simp [Manifest.get_machine, hax, hbx, this]
  · simp [Manifest.get_machine, hbx]

/-! Helper lemmas about the conflict resolver's recursion. -/

theorem detect_step_conflict (fetch : Nat → Option Manifest) (now : String)
    (c r : Manifest) (i : Nat) (hle : 3 ≤ i)
    (hf : fetch i = some r)
    (hn : r.is_newer_than (c.get_last_updated now) = true) :
    (detectAndResolveConflict fetch now c i).1 = .conflictError conflictMsg := by
  unfold detectAndResolveConflict resolveAux
  rw [hf]
  simp [hn, hle]

theorem detect_step_merge (fetch : Nat → Option Manifest) (now : String)
    (c r merged : Manifest) (i : Nat) (hlt : i < 3)
    (hf : fetch i = some r)
    (hn : r.is_newer_than (c.get_last_updated now) = true)
    (hm : c.merge_with r = some merged) :
    (detectAndResolveConflict fetch now c i).1
      = (detectAndResolveConflict fetch now merged (i + 1)).1 := by
  have hle : ¬ 3 ≤ i := by omega
  have hfuel : 4 - i = (4 - (i + 1)) + 1 := by omega
  conv_lhs => unfold detectAndResolveConflict resolveAux
  rw [hf, hfuel]
  simp only [hn, hle, hm, if_true, if_false]
  rfl

theorem resolveCandidate_succ (fetch : Nat → Option Manifest)
    (localManifest : Manifest) (i : Nat) :
    resolveCandidate fetch localManifest (i + 1)
      = match resolveCandidate fetch localManifest i with
        | none => none
        | some c =>
          match fetch i with
          | none => none
          | some r => c.merge_with r := rfl

/-- C2 (amended): when on 4 consecutive resolve attempts the freshly fetched
remote manifest is strictly newer than the current local candidate (each
failed attempt retrying with the merged manifest as the new candidate and
re-fetching), the conflict resolver exhausts its 3 retries and raises a
`ConflictError` instructing the caller to pull-then-push or to force-push.
The error message does not include the local and remote timestamps — those
are only printed as each conflict is detected. -/
theorem conflict_error_after_exhausted_retries (fetch : Nat → Option Manifest)
    (now : String) (localManifest : Manifest)
    (h : ∀ i, i ≤ 3 → ∃ r c, fetch i = some r ∧
      resolveCandidate fetch localManifest i = some c ∧
      r.is_newer_than (c.get_last_updated now) = true) :
    (detectAndResolveConflict fetch now localManifest 0).1
      = .conflictError conflictMsg ∧
    strContains conflictMsg "pull" = true ∧
    strContains conflictMsg "--force" = true := by
  obtain ⟨r0, c0, hf0, hc0, hn0⟩ := h 0 (by omega)
  obtain ⟨r1, c1, hf1, hc1, hn1⟩ := h 1 (by omega)
  obtain ⟨r2, c2, hf2, hc2, hn2⟩ := h 2 (by omega)
  obtain ⟨r3, c3, hf3, hc3, hn3⟩ := h 3 (by omega)
  have hc0' : c0 = localManifest := by
    have h0 := hc0
    simp only [resolveCandidate, Option.some.injEq] at h0
    exact h0.symm
  subst hc0'
  have hm01 : c0.merge_with r0 = some c1 := by
    have h1 := hc1
    rw [resolveCandidate_succ, hc0, hf0] at h1
    exact h1
  have hm12 : c1.merge_with r1 = some c2 := by
    have h2 := hc2
    rw [resolveCandidate_succ, hc1, hf1] at h2
    exact h2
  have hm23 : c2.merge_with r2 = some c3 := by
    have h3 := hc3
    rw [resolveCandidate_succ, hc2, hf2] at h3
    exact h3
  refine ⟨?_, by decide, by decide⟩
  calc (detectAndResolveConflict fetch now c0 0).1
      = (detectAndResolveConflict fetch now c1 1).1 :=
        detect_step_merge fetch now c0 r0 c1 0 (by omega) hf0 hn0 hm01
    _ = (detectAndResolveConflict fetch now c2 2).1 :=
        detect_step_merge fetch now c1 r1 c2 1 (by omega) hf1 hn1 hm12
    _ = (detectAndResolveConflict fetch now c3 3).1 :=
        detect_step_merge fetch now c2 r2 c3 2 (by omega) hf2 hn2 hm23
    _ = .conflictError conflictMsg :=
        detect_step_conflict fetch now c3 r3 3 (by omega) hf3 hn3

set_option maxRecDepth 4096 in
/-- C2 witness: a local manifest at instant 1 against remotes at instants
2, 3, 4, 5 — every one of the 4 attempts sees a strictly newer remote. -/
theorem conflict_error_after_exhausted_retries_witness :
    (detectAndResolveConflict
      (fun i => ([⟨"1.0", some "ii", [], some 30⟩,
                  ⟨"1.0", some "iii", [], some 30⟩,
                  ⟨"1.0", some "iiii", [], some 30⟩,
                  ⟨"1.0", some "iiiii", [], some 30⟩] : List Manifest).get? i)
      "" ⟨"1.0", some "i", [], some 0⟩ 0).1 = .conflictError conflictMsg ∧
    strContains conflictMsg "pull" = true ∧
    strContains conflictMsg "--force" = true := by
  refine conflict_error_after_exhausted_retries _ "" _ ?_
  intro i hi
  interval_cases i
  · exact ⟨_, ⟨"1.0", some "i", [], some 0⟩, rfl, rfl, by decide⟩
  · exact ⟨_, ⟨"1.0", some "ii", [], some 0⟩, rfl, by decide, by decide⟩
  · exact ⟨_, ⟨"1.0", some "iii", [], some 0⟩, rfl, by decide, by decide⟩
  · exact ⟨_, ⟨"1.0", some "iiii", [], some 0⟩, rfl, by decide, by decide⟩

set_option maxRecDepth 8192 in
/-- C2 counterexample: in the very scenario of the claim (4 consecutive
strictly-newer remotes, instants 2, 3, 4, 5 against a local candidate that
reaches instant 4), the raised `ConflictError`'s message contains neither the
local timestamp (rendering of instant 4) nor the remote timestamp (rendering
of instant 5): the error does not name the two timestamps. -/
theorem conflict_error_does_not_name_timestamps :
    (detectAndResolveConflict
      (fun i => ([⟨"1.0", some "ii", [], some 30⟩,
                  ⟨"1.0", some "iii", [], some 30⟩,
                  ⟨"1.0", some "iiii", [], some 30⟩,
                  ⟨"1.0", some "iiiii", [], some 30⟩] : List Manifest).get? i)
      "" ⟨"1.0", some "i", [], some 0⟩ 0).1 = .conflictError conflictMsg ∧
    strContains conflictMsg "iiii" = false ∧
    strContains conflictMsg "iiiii" = false := by
  refine ⟨by decide, by decide, by decide⟩

/-- C6 witness: machines `"X"` and `"Y"` survive merging in both orders with
their entries intact. -/
theorem merge_with_disjoint_machines_witness :
    ∃ M M', Manifest.merge_with
        ⟨"1.0", some "ii", [⟨"X", "iiiii", none, 1, "fX.json", ["bX"], none⟩], some 0⟩
        ⟨"1.0", some "iiii", [⟨"Y", "i", none, 2, "fY.json", [], some ["fY.json"]⟩], some 7⟩
        = some M ∧
      Manifest.merge_with
        ⟨"1.0", some "iiii", [⟨"Y", "i", none, 2, "fY.json", [], some ["fY.json"]⟩], some 7⟩
        ⟨"1.0", some "ii", [⟨"X", "iiiii", none, 1, "fX.json", ["bX"], none⟩], some 0⟩
        = some M' ∧
      M.get_machine "X" = some ⟨"X", "iiiii", none, 1, "fX.json", ["bX"], none⟩ ∧
      M.get_machine "Y" = some ⟨"Y", "i", none, 2, "fY.json", [], some ["fY.json"]⟩ ∧
      M'.get_machine "X" = some ⟨"X", "iiiii", none, 1, "fX.json", ["bX"], none⟩ ∧
      M'.get_machine "Y" = some ⟨"Y", "i", none, 2, "fY.json", [], some ["fY.json"]⟩ :=
  merge_with_disjoint_machines _ _ "X" "Y" _ _ "ii" "iiii" 2 4
    rfl rfl rfl rfl (by decide) rfl (by decide) rfl (by decide)

/-! Helper lemmas about the deduplicating importer. -/

/-- The natural keys currently in the store. -/
def storeKeys (store : List StoredRecord) : List String :=
  store.map (fun r => r.message_uuid)

theorem storeHasKey_iff {store : List StoredRecord} {mu : String} :
    storeHasKey store mu = true ↔ mu ∈ storeKeys store := by
  unfold storeHasKey storeKeys
  rw [List.any_eq_true]
  constructor
  · rintro ⟨r, hr, hb⟩
    exact List.mem_map.mpr ⟨r, hr, eq_of_beq hb⟩
  · rintro h
    obtain ⟨r, hr, hb⟩ := List.mem_map.mp h
    exact ⟨r, hr, beq_iff_eq.mpr hb⟩

theorem tryImportRecord_fresh {store : List StoredRecord} {r : RecordJson}
    {sid mu ts mdl : String} {tt it ot : Nat}
    (h1 : r.session_id? = some sid) (h2 : r.message_uuid? = some mu)
    (h3 : r.timestamp? = some ts) (h4 : r.model? = some mdl)
    (h5 : r.total_tokens? = some tt) (h6 : r.input_tokens? = some it)
    (h7 : r.output_tokens? = some ot)
    (hnot : storeHasKey store mu = false) :
    ∃ row, tryImportRecord store r = (.new, store ++ [row]) ∧
      row.message_uuid = mu := by
  unfold tryImportRecord
  simp only [h1, h2, h3, h4, h5, h6, h7, hnot, Bool.false_eq_true, if_false]
  exact ⟨_, rfl, rfl⟩

theorem tryImportRecord_dup {store : List StoredRecord} {r : RecordJson}
    {sid mu ts mdl : String} {tt it ot : Nat}
    (h1 : r.session_id? = some sid) (h2 : r.message_uuid? = some mu)
    (h3 : r.timestamp? = some ts) (h4 : r.model? = some mdl)
    (h5 : r.total_tokens? = some tt) (h6 : r.input_tokens? = some it)
    (h7 : r.output_tokens? = some ot)
    (hin : storeHasKey store mu = true) :
    tryImportRecord store r = (.dup, store) := by
  unfold tryImportRecord
  simp only [h1, h2, h3, h4, h5, h6, h7, hin, if_true]

theorem tryImportRecord_cases (store : List StoredRecord) (r : RecordJson) :
    (∃ row, tryImportRecord store r = (.new, store ++ [row])) ∨
    tryImportRecord store r = (.dup, store) ∨
    tryImportRecord store r = (.err, store) := by
  unfold tryImportRecord
  split
  · split
    · right; left; rfl
    · left; exact ⟨_, rfl⟩
  · right; right; rfl

theorem required_fields_unpack {r : RecordJson}
    (h : requiredRecordFieldsPresent r = true) :
    ∃ sid mu ts mdl tt it ot, r.session_id? = some sid ∧
      r.message_uuid? = some mu ∧ r.timestamp? = some ts ∧
      r.model? = some mdl ∧ r.total_tokens? = some tt ∧
      r.input_tokens? = some it ∧ r.output_tokens? = some ot := by
  unfold requiredRecordFieldsPresent at h
  simp only [Bool.and_eq_true, Option.isSome_iff_exists] at h
  obtain ⟨⟨⟨⟨⟨⟨⟨sid, h1⟩, mu, h2⟩, ts, h3⟩, mdl, h4⟩, tt, h5⟩, it, h6⟩, ot, h7⟩ := h
  exact ⟨sid, mu, ts, mdl, tt, it, ot, h1, h2, h3, h4, h5, h6, h7⟩

/-- The per-record keys of a bundle's record list. -/
def recordKeys (rs : List RecordJson) : List String :=
  rs.filterMap (fun r => r.message_uuid?)

theorem importLoop_all_new :
    ∀ (rs : List RecordJson) (store : List StoredRecord) (stats : ImportStats),
      (∀ r ∈ rs, requiredRecordFieldsPresent r = true) →
      (recordKeys rs).Nodup →
      (∀ mu ∈ recordKeys rs, mu ∉ storeKeys store) →
      ∃ store', importLoop store stats rs =
          ({ new_records := stats.new_records + rs.length,
             duplicate_records := stats.duplicate_records,
             errors := stats.errors }, store') ∧
        storeKeys store' = storeKeys store ++ recordKeys rs := by
  intro rs
  induction rs with
  | nil =>
    intro store stats _ _ _
    exact ⟨store, by simp [importLoop], by simp [recordKeys]⟩
  | cons r rs ih =>
    intro store stats hv hnd hfresh
    obtain ⟨sid, mu, ts, mdl, tt, it, ot, h1, h2, h3, h4, h5, h6, h7⟩ :=
      required_fields_unpack (hv r (List.mem_cons_self r rs))
    have hkeys : recordKeys (r :: rs) = mu :: recordKeys rs := by
      unfold recordKeys
      rw [List.filterMap_cons, h2]
    have hmu_fresh : storeHasKey store mu = false := by
      rcases Bool.eq_false_or_eq_true (storeHasKey store mu) with h | h
      · exact absurd (storeHasKey_iff.mp h)
          (hfresh mu (by rw [hkeys]; exact List.mem_cons_self _ _))
      · exact h
    obtain ⟨row, hrow, hrowmu⟩ :=
      tryImportRecord_fresh h1 h2 h3 h4 h5 h6 h7 hmu_fresh
    rw [hkeys] at hnd hfresh
    obtain ⟨store', hloop, hkeys'⟩ := ih (store ++ [row]) (bumpStats stats .new)
      (fun x hx => hv x (List.mem_cons_of_mem r hx))
      (List.Nodup.of_cons hnd)
      (by
        intro mu' hmu'
        rw [storeKeys, List.map_append, ← storeKeys, ← storeKeys]
        rw [List.mem_append]
        rintro (hin | hin)
        · exact hfresh mu' (List.mem_cons_of_mem _ hmu') hin
        · have : mu' = mu := by
            simpa [storeKeys, hrowmu] using hin
          rw [this] at hmu'
          exact (List.nodup_cons.mp hnd).1 hmu')
    refine ⟨store', ?_, ?_⟩
    · show importLoop store stats (r :: rs) = _
      simp only [importLoop, hrow]
      rw [hloop]
      congr 1
      simp [bumpStats]
      omega
    · rw [hkeys', storeKeys, List.map_append, ← storeKeys, ← storeKeys]
      simp [storeKeys, hrowmu, hkeys]

theorem importLoop_all_dup :
    ∀ (rs : List RecordJson) (store : List StoredRecord) (stats : ImportStats),
      (∀ r ∈ rs, requiredRecordFieldsPresent r = true) →
      (∀ r ∈ rs, ∀ mu, r.message_uuid? = some mu → mu ∈ storeKeys store) →
      importLoop store stats rs =
        ({ stats with duplicate_records := stats.duplicate_records + rs.length },
          store) := by
  intro rs
  induction rs with
  | nil => intro store stats _ _; simp [importLoop]
  | cons r rs ih =>
    intro store stats hv hin
    obtain ⟨sid, mu, ts, mdl, tt, it, ot, h1, h2, h3, h4, h5, h6, h7⟩ :=
      required_fields_unpack (hv r (List.mem_cons_self r rs))
    have hdup : storeHasKey store mu = true :=
      storeHasKey_iff.mpr (hin r (List.mem_cons_self r rs) mu h2)
    simp only [importLoop, tryImportRecord_dup h1 h2 h3 h4 h5 h6 h7 hdup]
    rw [ih store (bumpStats stats .dup)
      (fun x hx => hv x (List.mem_cons_of_mem r hx))
      (fun x hx => hin x (List.mem_cons_of_mem r hx))]
    congr 1
    simp [bumpStats]
    omega

theorem importLoop_sum_append :
    ∀ (rs : List RecordJson) (store : List StoredRecord) (stats : ImportStats),
      ∃ stats' tail, importLoop store stats rs = (stats', store ++ tail) ∧
        stats'.new_records + stats'.duplicate_records + stats'.errors
          = stats.new_records + stats.duplicate_records + stats.errors
            + rs.length ∧
        stats.new_records + tail.length = stats'.new_records := by
  intro rs
  induction rs with
  | nil => intro store stats; exact ⟨stats, [], by simp [importLoop], by simp, by simp⟩
  | cons r rs ih =>
    intro store stats
    rcases tryImportRecord_cases store r with ⟨row, hr⟩ | hr | hr
    · obtain ⟨stats', tail, hloop, hsum, hnew⟩ := ih (store ++ [row]) (bumpStats stats .new)
      refine ⟨stats', [row] ++ tail, ?_, ?_, ?_⟩
      · simp only [importLoop, hr]
        rw [hloop, List.append_assoc]
      · simp [bumpStats] at hsum ⊢
        omega
      · simp [bumpStats] at hnew ⊢
        omega
    · obtain ⟨stats', tail, hloop, hsum, hnew⟩ := ih store (bumpStats stats .dup)
      refine ⟨stats', tail, ?_, ?_, ?_⟩
      · simp only [importLoop, hr]
        rw [hloop]
      · simp [bumpStats] at hsum ⊢
        omega
      · simpa [bumpStats] using hnew
    · obtain ⟨stats', tail, hloop, hsum, hnew⟩ := ih store (bumpStats stats .err)
      refine ⟨stats', tail, ?_, ?_, ?_⟩
      · simp only [importLoop, hr]
        rw [hloop]
      · simp [bumpStats] at hsum ⊢
        omega
      · simpa [bumpStats] using hnew

/-- C4: importing the same bundle of N valid records (pairwise-distinct
natural keys) twice into an initially empty store yields
`(new = N, duplicate = 0)` from the first import and `(new = 0,
duplicate = N)` from the second, with the store unchanged by the second. -/
theorem import_twice_idempotent (b : BundleJson) (rs : List RecordJson)
    (hmn : b.machine_name?.isSome = true) (hed : b.export_date?.isSome = true)
    (hrec : b.records? = some rs)
    (hv : ∀ r ∈ rs, requiredRecordFieldsPresent r = true)
    (hnd : (recordKeys rs).Nodup) :
    ∃ s1, import_from_json b [] false = some (⟨rs.length, 0, 0⟩, s1) ∧
      import_from_json b s1 false = some (⟨0, rs.length, 0⟩, s1) := by
  obtain ⟨mn, hmn'⟩ := Option.isSome_iff_exists.mp hmn
  obtain ⟨ed, hed'⟩ := Option.isSome_iff_exists.mp hed
  obtain ⟨s1, hloop1, hkeys1⟩ := importLoop_all_new rs [] ⟨0, 0, 0⟩ hv hnd
    (by intro mu _ hmem; simp [storeKeys] at hmem)
  have hs1keys : storeKeys s1 = recordKeys rs := by
    simpa [storeKeys] using hkeys1
  have hloop2 : importLoop s1 ⟨0, 0, 0⟩ rs = (⟨0, rs.length, 0⟩, s1) := by
    have h := importLoop_all_dup rs s1 ⟨0, 0, 0⟩ hv
      (fun r hr mu hmu => by
        rw [hs1keys]
        exact List.mem_filterMap.mpr ⟨r, hr, hmu⟩)
    simpa using h
  refine ⟨s1, ?_, ?_⟩
  · unfold import_from_json
    simp only [hmn', hed', hrec, Option.isNone_some, Bool.false_or,
      Option.getD_some, if_false, Bool.or_self, Bool.false_eq_true]
    rw [hloop1]
    norm_num
  · unfold import_from_json
    simp only [hmn', hed', hrec, Option.isNone_some, Bool.false_or,
      Option.getD_some, if_false, Bool.or_self, Bool.false_eq_true]
    rw [hloop2]

/-- C4 witness: a bundle of three records imported twice into an empty
store. -/
theorem import_twice_idempotent_witness :
    ∃ s1, import_from_json
        ⟨some "M", some "iii", some
          [⟨some "s", some "a", some "t1", some "m", some 1, some 2, some 3,
            none, none, none, none, none, none⟩,
           ⟨some "s", some "b", some "t2", some "m", some 1, some 2, some 3,
            none, none, none, none, none, none⟩,
           ⟨some "s", some "c", some "t3", some "m", some 1, some 2, some 3,
            none, none, none, none, none, none⟩]⟩
        [] false = some (⟨3, 0, 0⟩, s1) ∧
      import_from_json
        ⟨some "M", some "iii", some
          [⟨some "s", some "a", some "t1", some "m", some 1, some 2, some 3,
            none, none, none, none, none, none⟩,
           ⟨some "s", some "b", some "t2", some "m", some 1, some 2, some 3,
            none, none, none, none, none, none⟩,
           ⟨some "s", some "c", some "t3", some "m", some 1, some 2, some 3,
            none, none, none, none, none, none⟩]⟩
        s1 false = some (⟨0, 3, 0⟩, s1) := by
  have h := import_twice_idempotent
    ⟨some "M", some "iii", some
      [⟨some "s", some "a", some "t1", some "m", some 1, some 2, some 3,
        none, none, none, none, none, none⟩,
       ⟨some "s", some "b", some "t2", some "m", some 1, some 2, some 3,
        none, none, none, none, none, none⟩,
       ⟨some "s", some "c", some "t3", some "m", some 1, some 2, some 3,
        none, none, none, none, none, none⟩]⟩
    [⟨some "s", some "a", some "t1", some "m", some 1, some 2, some 3,
        none, none, none, none, none, none⟩,
     ⟨some "s", some "b", some "t2", some "m", some 1, some 2, some 3,
        none, none, none, none, none, none⟩,
     ⟨some "s", some "c", some "t3", some "m", some 1, some 2, some 3,
        none, none, none, none, none, none⟩]
    rfl rfl rfl (by decide) (by decide)
  simpa using h

/-- C7: a non-dry-run import of a bundle with the required top-level fields
attempts every record inside the single write transaction — the three
counters sum to the record count — and commits the store with the previous
rows intact plus exactly `new_records` inserted rows; per-record failures
(duplicates and errors) leave the other records' processing and the final
commit untouched. -/
theorem import_commits_and_attempts_all (b : BundleJson)
    (store : List StoredRecord) (rs : List RecordJson)
    (hmn : b.machine_name?.isSome = true) (hed : b.export_date?.isSome = true)
    (hrec : b.records? = some rs) :
    ∃ stats store', import_from_json b store false = some (stats, store') ∧
      stats.new_records + stats.duplicate_records + stats.errors = rs.length ∧
      ∃ tail, store' = store ++ tail ∧ tail.length = stats.new_records := by
  obtain ⟨mn, hmn'⟩ := Option.isSome_iff_exists.mp hmn
  obtain ⟨ed, hed'⟩ := Option.isSome_iff_exists.mp hed
  obtain ⟨stats', tail, hloop, hsum, hnew⟩ := importLoop_sum_append rs store ⟨0, 0, 0⟩
  refine ⟨stats', store ++ tail, ?_, by simpa using hsum, tail, rfl,
    by simpa using hnew⟩
  unfold import_from_json
  simp only [hmn', hed', hrec, Option.isNone_some, Bool.false_or,
    Option.getD_some, if_false, Bool.or_self, Bool.false_eq_true]
  rw [hloop]

set_option maxRecDepth 100000 in
/-- C7 witness: a bundle of 100 records of which exactly one (index 57) lacks
`message_uuid` — the import yields `new = 99, errors = 1` and the transaction
commits all 99 rows. -/
theorem import_commits_and_attempts_all_witness :
    (∃ stats store', import_from_json
        ⟨some "M", some "iii", some ((List.range 100).map (fun k =>
          if k = 57 then
            ⟨some "s", none, some "2024-01-01T00:00:00", some "m",
              some 1, some 1, some 1, none, none, none, none, none, none⟩
          else
            ⟨some "s", some ("u" ++ toString k), some "2024-01-01T00:00:00",
              some "m", some 1, some 1, some 1, none, none, none, none, none,
              none⟩))⟩
        [] false = some (stats, store') ∧
      stats.new_records + stats.duplicate_records + stats.errors
        = ((List.range 100).map (fun k =>
          if k = 57 then
            (⟨some "s", none, some "2024-01-01T00:00:00", some "m",
              some 1, some 1, some 1, none, none, none, none, none, none⟩ :
              RecordJson)
          else
            ⟨some "s", some ("u" ++ toString k), some "2024-01-01T00:00:00",
              some "m", some 1, some 1, some 1, none, none, none, none, none,
              none⟩)).length ∧
      ∃ tail, store' = [] ++ tail ∧ tail.length = stats.new_records) ∧
    Option.map Prod.fst (import_from_json
        ⟨some "M", some "iii", some ((List.range 100).map (fun k =>
          if k = 57 then
            ⟨some "s", none, some "2024-01-01T00:00:00", some "m",
              some 1, some 1, some 1, none, none, none, none, none, none⟩
          else
            ⟨some "s", some ("u" ++ toString k), some "2024-01-01T00:00:00",
              some "m", some 1, some 1, some 1, none, none, none, none, none,
              none⟩))⟩
        [] false) = some ⟨99, 0, 1⟩ :=
  ⟨import_commits_and_attempts_all _ [] _ rfl rfl rfl, by decide⟩

/-- C9: a push with `force = false` whose chunked export yields zero records
returns the "nothing to sync" result and performs no operation on the remote
container — its remote-operation trace is empty, so no container is found,
created or fetched and no file is uploaded or deleted. -/
theorem push_zero_records_touches_nothing (env : PushEnv)
    (chunked_exports : List (Suffix × ExportBundle))
    (create_backup skip_conflict_check : Bool)
    (h : (chunked_exports.map (fun se => se.2.records.length)).sum = 0) :
    push env chunked_exports false create_backup skip_conflict_check
      = (.nothingToSync, []) := by
  unfold push
  simp [h]

/-! Helper lemmas about dates and the chunked exporter. -/

/-- The `date >= since_date` condition at the date level (`true` when no
`since_date` is given). -/
def sinceOK (since : Option Date) (dt : Date) : Bool :=
  match since with
  | none => true
  | some s => Date.leB s dt

theorem leB_iff (a b : Date) : Date.leB a b = true ↔
    (a.y < b.y ∨ (a.y = b.y ∧ (a.m < b.m ∨ (a.m = b.m ∧ a.d ≤ b.d)))) := by
  unfold Date.leB
  simp

theorem leB_trans {a b c : Date} (h1 : Date.leB a b = true)
    (h2 : Date.leB b c = true) : Date.leB a c = true := by
  rw [leB_iff] at h1 h2 ⊢
  omega

theorem leB_total (a b : Date) : Date.leB a b = true ∨ Date.leB b a = true := by
  rw [leB_iff, leB_iff]
  omega

theorem lastDayOfMonth_le (y m : Nat) : lastDayOfMonth y m ≤ 31 := by
  unfold lastDayOfMonth
  repeat' split
  all_goals omega

theorem lastDayOfMonth_twelve (y : Nat) : lastDayOfMonth y 12 = 31 := by
  unfold lastDayOfMonth
  norm_num

theorem yearRange_iff {d : Date} (hv : ValidDate d) (y : Nat) :
    (Date.leB ⟨y, 1, 1⟩ d && Date.leB d ⟨y, 12, 31⟩) = true ↔ d.y = y := by
  obtain ⟨hm1, hm2, hd1, hd2⟩ := hv
  have h31 : lastDayOfMonth d.y d.m ≤ 31 := lastDayOfMonth_le d.y d.m
  rw [Bool.and_eq_true, leB_iff, leB_iff]
  simp only
  omega

theorem monthRange_iff {d : Date} (hv : ValidDate d) (y m : Nat) :
    (Date.leB ⟨y, m, 1⟩ d && Date.leB d ⟨y, m, lastDayOfMonth y m⟩) = true ↔
      (d.y = y ∧ d.m = m) := by
  obtain ⟨hm1, hm2, hd1, hd2⟩ := hv
  rw [Bool.and_eq_true, leB_iff, leB_iff]
  simp only
  constructor
  · intro h
    omega
  · rintro ⟨hy, hm⟩
    subst hy
    subst hm
    omega

theorem chunksOfAux_flatten {n : Nat} (hn : n ≠ 0) :
    ∀ (fuel : Nat) (l : List Record), l.length ≤ fuel →
      (chunksOfAux n fuel l).flatten = l := by
  intro fuel
  induction fuel with
  | zero =>
    intro l hl
    have : l = [] := List.length_eq_zero.mp (Nat.le_zero.mp hl)
    subst this
    rfl
  | succ fuel ih =>
    intro l hl
    cases l with
    | nil => rfl
    | cons a t =>
      show ((a :: t).take n :: chunksOfAux n fuel ((a :: t).drop n)).flatten
        = a :: t
      rw [List.flatten_cons]
      rw [ih ((a :: t).drop n) (by
        rw [List.length_drop]
        simp only [List.length_cons] at hl ⊢
        omega)]
      exact List.take_append_drop n (a :: t)

theorem chunksOf_flatten {n : Nat} (hn : n ≠ 0) (l : List Record) :
    (chunksOf n l).flatten = l := by
  unfold chunksOf
  rw [if_neg hn]
  exact chunksOfAux_flatten hn l.length l (Nat.le_refl _)

theorem chunksOf_nil (n : Nat) : chunksOf n [] = [] := by
  unfold chunksOf
  cases n <;> rfl

theorem chunksOfAux_length_le (n : Nat) :
    ∀ (fuel : Nat) (l : List Record) (c : List Record),
      c ∈ chunksOfAux n fuel l → c.length ≤ n := by
  intro fuel
  induction fuel with
  | zero =>
    intro l c hc
    cases l with
    | nil => exact absurd hc (List.not_mem_nil c)
    | cons a t => exact absurd hc (List.not_mem_nil c)
  | succ fuel ih =>
    intro l c hc
    cases l with
    | nil => exact absurd hc (List.not_mem_nil c)
    | cons a t =>
      rcases List.mem_cons.mp hc with rfl | hc'
      · rw [List.length_take]
        omega
      · exact ih _ c hc'

theorem chunksOf_length_le (n : Nat) (l : List Record) (c : List Record)
    (hc : c ∈ chunksOf n l) : c.length ≤ n := by
  unfold chunksOf at hc
  by_cases hn : n = 0
  · rw [if_pos hn] at hc
    exact absurd hc (List.not_mem_nil c)
  · rw [if_neg hn] at hc
    exact chunksOfAux_length_le n l.length l c hc

theorem flatMap_congr {α β : Type} {l : List α} {f g : α → List β}
    (h : ∀ a ∈ l, f a = g a) : l.flatMap f = l.flatMap g := by
  induction l with
  | nil => rfl
  | cons a t ih =>
    rw [List.flatMap_cons, List.flatMap_cons,
      h a (List.mem_cons_self a t),
      ih (fun x hx => h x (List.mem_cons_of_mem a hx))]

theorem flatMap_perm_congr {α β : Type} {l : List α} {f g : α → List β}
    (h : ∀ a ∈ l, (f a).Perm (g a)) : (l.flatMap f).Perm (l.flatMap g) := by
  induction l with
  | nil => exact List.Perm.refl _
  | cons a t ih =>
    rw [List.flatMap_cons, List.flatMap_cons]
    exact List.Perm.append (h a (List.mem_cons_self a t))
      (ih (fun x hx => h x (List.mem_cons_of_mem a hx)))

theorem flatMap_flatMap {α β γ : Type} (l : List α) (f : α → List β)
    (g : β → List γ) :
    (l.flatMap f).flatMap g = l.flatMap (fun a => (f a).flatMap g) := by
  induction l with
  | nil => rfl
  | cons a t ih =>
    rw [List.flatMap_cons, List.flatMap_cons, ← ih]
    unfold List.flatMap
    rw [List.map_append, List.flatten_append]

/-- Splitting a list by the distinct values of a key is a permutation of the
list. -/
theorem perm_flatMap_filter {α κ : Type} [BEq κ] [LawfulBEq κ] (key : α → κ) :
    ∀ (ks : List κ) (l : List α), ks.Nodup → (∀ x ∈ l, key x ∈ ks) →
      (ks.flatMap (fun k => l.filter (fun x => key x == k))).Perm l := by
  intro ks
  induction ks with
  | nil =>
    intro l _ hcov
    cases l with
    | nil => exact List.Perm.refl _
    | cons a t =>
      exact absurd (hcov a (List.mem_cons_self a t)) (List.not_mem_nil _)
  | cons k ks ih =>
    intro l hnd hcov
    rw [List.flatMap_cons]
    have hks : ∀ k' ∈ ks, l.filter (fun x => key x == k')
        = (l.filter (fun x => !(key x == k))).filter (fun x => key x == k') := by
      intro k' hk'
      have hkk : k' ≠ k := by
        intro h
        subst h
        exact (List.nodup_cons.mp hnd).1 hk'
      rw [List.filter_filter]
      apply List.filter_congr
      intro x _
      by_cases hx : key x = k'
      · simp [hx]
        exact hkk
      · simp [hx]
    have hstep : ks.flatMap (fun k' => l.filter (fun x => key x == k'))
        = ks.flatMap (fun k' =>
            (l.filter (fun x => !(key x == k))).filter (fun x => key x == k')) :=
      flatMap_congr hks
    rw [hstep]
    have hperm : (ks.flatMap (fun k' =>
        (l.filter (fun x => !(key x == k))).filter
          (fun x => key x == k'))).Perm (l.filter (fun x => !(key x == k))) := by
      apply ih
      · exact (List.nodup_cons.mp hnd).2
      · intro x hx
        have hxl := List.mem_of_mem_filter hx
        have hxk := List.of_mem_filter hx
        rcases List.mem_cons.mp (hcov x hxl) with h | h
        · rw [h] at hxk
          simp at hxk
        · exact h
    exact (List.Perm.append_left _ hperm).trans (List.filter_append_perm _ l)

theorem filterSince_eq_filter (since : Option Date) (db : List Record) :
    filterSince since db = db.filter (fun r => sinceOK since r.date) := by
  cases since with
  | none =>
    show db = db.filter (fun _ => true)
    simp
  | some s => rfl

theorem leB_effectiveStart (since : Option Date) (startD d : Date) :
    Date.leB (effectiveStart since startD) d
      = (Date.leB startD d && sinceOK since d) := by
  cases since with
  | none => simp [effectiveStart, sinceOK]
  | some s =>
    show Date.leB (if Date.ltB startD s then s else startD) d
      = (Date.leB startD d && Date.leB s d)
    by_cases hlt : Date.ltB startD s = true
    · rw [if_pos hlt]
      have hss : Date.leB startD s = true := by
        unfold Date.ltB at hlt
        rcases leB_total startD s with h | h
        · exact h
        · rw [h] at hlt
          simp at hlt
      cases hd : Date.leB s d with
      | false => simp
      | true => simp [leB_trans hss hd]
    · rw [if_neg hlt]
      have hss : Date.leB s startD = true := by
        unfold Date.ltB at hlt
        simpa using hlt
      cases hd : Date.leB startD d with
      | false => simp
      | true => simp [leB_trans hss hd]

theorem periodRecords_eq (db : List Record) (since : Option Date)
    (startD endD : Date) :
    periodRecords db since startD endD
      = db.filter (fun r =>
          (Date.leB startD r.date && Date.leB r.date endD)
            && sinceOK since r.date) := by
  unfold periodRecords
  apply List.filter_congr
  intro r _
  rw [leB_effectiveStart]
  cases Date.leB startD r.date <;> cases Date.leB r.date endD <;>
    cases sinceOK since r.date <;> rfl

theorem yearPeriodRecords_eq (db : List Record) (since : Option Date) (y : Nat)
    (hv : ∀ r ∈ db, ValidDate r.date) :
    yearPeriodRecords db since y
      = (filterSince since db).filter (fun r => r.date.y == y) := by
  rw [filterSince_eq_filter, List.filter_filter]
  unfold yearPeriodRecords
  rw [periodRecords_eq]
  apply List.filter_congr
  intro r hr
  have hrange : (Date.leB ⟨y, 1, 1⟩ r.date && Date.leB r.date ⟨y, 12, 31⟩)
      = (r.date.y == y) := by
    rw [Bool.eq_iff_iff, yearRange_iff (hv r hr) y, beq_iff_eq]
  rw [hrange]

theorem monthPeriodRecords_eq (db : List Record) (since : Option Date)
    (p : Nat × Nat) (hv : ∀ r ∈ db, ValidDate r.date) :
    monthPeriodRecords db since p
      = (filterSince since db).filter (fun r => ymKey r == p) := by
  rw [filterSince_eq_filter, List.filter_filter]
  unfold monthPeriodRecords
  rw [periodRecords_eq]
  apply List.filter_congr
  intro r hr
  have hrange : (Date.leB ⟨p.1, p.2, 1⟩ r.date
      && Date.leB r.date ⟨p.1, p.2, lastDayOfMonth p.1 p.2⟩)
      = (ymKey r == p) := by
    rw [Bool.eq_iff_iff, monthRange_iff (hv r hr) p.1 p.2]
    unfold ymKey
    constructor
    · rintro ⟨h1, h2⟩
      cases p
      simp [h1, h2]
    · intro h
      cases p
      simp at h
      exact h
  rw [hrange]

theorem enum_map_records (f : Nat → Suffix) (cs : List (List Record)) :
    ((cs.enum.map (fun ic => (f ic.1, ic.2))).flatMap
      (fun sb : Suffix × List Record => sb.2)) = cs.flatten := by
  rw [List.flatMap_def, List.map_map]
  have : ((fun sb : Suffix × List Record => sb.2) ∘ fun ic => (f ic.1, ic.2))
      = fun ic : Nat × List Record => ic.2 := rfl
  rw [this]
  rw [List.enum_map_snd]

theorem snd_mem_of_mem_enum {cs : List (List Record)} {ic : Nat × List Record}
    (h : ic ∈ cs.enum) : ic.2 ∈ cs := by
  have hm := List.mem_map_of_mem Prod.snd h
  rwa [List.enum_map_snd] at hm

theorem length_filter_and_le (db : List Record) (p q : Record → Bool) :
    (db.filter (fun r => p r && q r)).length ≤ (db.filter p).length := by
  have h1 : db.filter (fun r => p r && q r) = db.filter (fun r => q r && p r) :=
    List.filter_congr (fun r _ => by cases p r <;> cases q r <;> rfl)
  rw [h1, ← List.filter_filter]
  exact List.length_filter_le _ _

/-- The records of one year's bundles are exactly the filtered records of that
year (up to bundle order).  `h0` is the no-`ZeroDivisionError` condition for
the year's chunked months. -/
theorem yearBundles_records_perm (db : List Record) (since : Option Date)
    (maxPerFile : Nat) (y : Nat)
    (hv : ∀ r ∈ db, ValidDate r.date)
    (h0 : ¬ yearCount db y ≤ maxPerFile →
      ∀ p ∈ (yearMonths db since).filter (fun q => q.1 == y),
        ¬ monthCount db p ≤ maxPerFile →
        monthPeriodRecords db since p = [] ∨ maxPerFile ≠ 0) :
    ((yearBundles db since maxPerFile y).flatMap
      (fun sb : Suffix × List Record => sb.2)).Perm
      ((filterSince since db).filter (fun r => r.date.y == y)) := by
  by_cases hyc : yearCount db y ≤ maxPerFile
  · simp only [yearBundles, if_pos hyc]
    rw [yearPeriodRecords_eq db since y hv]
    by_cases hre :
        ((filterSince since db).filter (fun r => r.date.y == y)).isEmpty = true
    · rw [if_pos hre]
      rw [List.isEmpty_iff.mp hre]
      simp
    · rw [if_neg hre]
      simp
  · simp only [yearBundles, if_neg hyc]
    rw [flatMap_flatMap]
    have hmem_y : ∀ p ∈ (yearMonths db since).filter (fun q => q.1 == y),
        p.1 = y := by
      intro p hp
      have h := List.of_mem_filter hp
      simpa using h
    have hfy : ∀ p ∈ (yearMonths db since).filter (fun q => q.1 == y),
        ((filterSince since db).filter (fun r => r.date.y == y)).filter
            (fun r => ymKey r == p)
          = (filterSince since db).filter (fun r => ymKey r == p) := by
      intro p hp
      rw [List.filter_filter]
      apply List.filter_congr
      intro r _
      by_cases hym : ymKey r = p
      · have hy : r.date.y = y := by
          have : r.date.y = p.1 := congrArg Prod.fst hym
          rw [this, hmem_y p hp]
        simp [hym, hy]
      · simp [hym]
    have hcong : ((yearMonths db since).filter (fun q => q.1 == y)).flatMap
        (fun p => (if monthCount db p ≤ maxPerFile then
            (let recs := monthPeriodRecords db since p
             if recs.isEmpty then [] else [(Suffix.month p.1 p.2, recs)])
          else
            ((chunksOf maxPerFile (monthPeriodRecords db since p)).enum.map
              (fun ic => (Suffix.chunk p.1 p.2 (ic.1 + 1), ic.2)))).flatMap
          (fun sb : Suffix × List Record => sb.2))
        = ((yearMonths db since).filter (fun q => q.1 == y)).flatMap
          (fun p => ((filterSince since db).filter
            (fun r => r.date.y == y)).filter (fun r => ymKey r == p)) := by
      apply flatMap_congr
      intro p hp
      rw [hfy p hp]
      by_cases hmc : monthCount db p ≤ maxPerFile
      · simp only [if_pos hmc]
        rw [monthPeriodRecords_eq db since p hv]
        by_cases hre : ((filterSince since db).filter
            (fun r => ymKey r == p)).isEmpty = true
        · rw [if_pos hre]
          rw [List.isEmpty_iff.mp hre]
          simp
        · rw [if_neg hre]
          simp
      · simp only [if_neg hmc]
        rw [enum_map_records (fun i => Suffix.chunk p.1 p.2 (i + 1))
          (chunksOf maxPerFile (monthPeriodRecords db since p))]
        rcases h0 hyc p hp hmc with hemp | hnz
        · have hemp' : (filterSince since db).filter
              (fun r => ymKey r == p) = [] := by
            rw [← monthPeriodRecords_eq db since p hv]
            exact hemp
          rw [hemp, chunksOf_nil, hemp']
          rfl
        · rw [chunksOf_flatten hnz]
          exact monthPeriodRecords_eq db since p hv
    rw [hcong]
    apply perm_flatMap_filter ymKey
    · exact List.Nodup.filter _ (List.nodup_dedup _)
    · intro x hx
      have hx1 : x ∈ filterSince since db := List.mem_of_mem_filter hx
      have hx2 : x.date.y = y := by
        have h := List.of_mem_filter hx
        simpa using h
      apply List.mem_filter.mpr
      constructor
      · exact List.mem_dedup.mpr (List.mem_map.mpr ⟨x, hx1, rfl⟩)
      · show ((ymKey x).1 == y) = true
        rw [beq_iff_eq]
        exact hx2

/-- Every bundle a year emits respects the per-file record bound. -/
theorem yearBundles_length_le (db : List Record) (since : Option Date)
    (maxPerFile : Nat) (y : Nat)
    (hv : ∀ r ∈ db, ValidDate r.date) :
    ∀ sb ∈ yearBundles db since maxPerFile y, sb.2.length ≤ maxPerFile := by
  intro sb hsb
  by_cases hyc : yearCount db y ≤ maxPerFile
  · simp only [yearBundles, if_pos hyc] at hsb
    by_cases hre : (yearPeriodRecords db since y).isEmpty = true
    · rw [if_pos hre] at hsb
      exact absurd hsb (List.not_mem_nil sb)
    · rw [if_neg hre] at hsb
      rcases List.mem_cons.mp hsb with rfl | hsb'
      · show (yearPeriodRecords db since y).length ≤ maxPerFile
        rw [yearPeriodRecords_eq db since y hv, filterSince_eq_filter,
          List.filter_filter]
        exact Nat.le_trans
          (length_filter_and_le db (fun r => r.date.y == y)
            (fun r => sinceOK since r.date)) hyc
      · exact absurd hsb' (List.not_mem_nil sb)
  · simp only [yearBundles, if_neg hyc] at hsb
    obtain ⟨p, hp, hsbp⟩ := List.mem_flatMap.mp hsb
    by_cases hmc : monthCount db p ≤ maxPerFile
    · rw [if_pos hmc] at hsbp
      by_cases hre : (monthPeriodRecords db since p).isEmpty = true
      · rw [if_pos hre] at hsbp
        exact absurd hsbp (List.not_mem_nil sb)
      · rw [if_neg hre] at hsbp
        rcases List.mem_cons.mp hsbp with rfl | hsbp'
        · show (monthPeriodRecords db since p).length ≤ maxPerFile
          rw [monthPeriodRecords_eq db since p hv, filterSince_eq_filter,
            List.filter_filter]
          exact Nat.le_trans
            (length_filter_and_le db (fun r => ymKey r == p)
              (fun r => sinceOK since r.date)) hmc
        · exact absurd hsbp' (List.not_mem_nil sb)
    · rw [if_neg hmc] at hsbp
      obtain ⟨ic, hic, heq⟩ := List.mem_map.mp hsbp
      have h2 : sb.2 = ic.2 := by
        rw [← heq]
      rw [h2]
      exact chunksOf_length_le maxPerFile _ ic.2 (snd_mem_of_mem_enum hic)

/-- The records of the whole year-split result are exactly the filtered
records (up to order). -/
theorem exportResult_records_perm (db : List Record) (since : Option Date)
    (maxPerFile : Nat)
    (hv : ∀ r ∈ db, ValidDate r.date)
    (h0 : ∀ y ∈ exportYears db since, ¬ yearCount db y ≤ maxPerFile →
      ∀ p ∈ (yearMonths db since).filter (fun q => q.1 == y),
        ¬ monthCount db p ≤ maxPerFile →
        monthPeriodRecords db since p = [] ∨ maxPerFile ≠ 0) :
    (((exportYears db since).flatMap (yearBundles db since maxPerFile)).flatMap
      (fun sb : Suffix × List Record => sb.2)).Perm (filterSince since db) := by
  rw [flatMap_flatMap]
  have hstep := flatMap_perm_congr
    (f := fun y => (yearBundles db since maxPerFile y).flatMap
      (fun sb : Suffix × List Record => sb.2))
    (g := fun y => (filterSince since db).filter (fun r => r.date.y == y))
    (l := exportYears db since)
    (fun y hy => yearBundles_records_perm db since maxPerFile y hv (h0 y hy))
  refine hstep.trans ?_
  exact perm_flatMap_filter (fun r => r.date.y) (exportYears db since)
    (filterSince since db) (List.nodup_dedup _)
    (fun x hx => List.mem_dedup.mpr (List.mem_map.mpr
      ⟨ymKey x, List.mem_dedup.mpr (List.mem_map.mpr ⟨x, hx, rfl⟩), rfl⟩))

/-- When the export does not crash, a year that overflows into an overflowing
month either has no records in that month after filtering, or the per-file
bound is positive. -/
theorem export_h0_of_no_crash (db : List Record) (since : Option Date)
    (maxFileSize : Nat)
    (hcrash : exportCrash db since maxFileSize = false)
    (hfits : ¬ (filterSince since db).length * ESTIMATED_BYTES_PER_RECORD
      ≤ maxFileSize)
    (hyms : ¬ (yearMonths db since).isEmpty = true) :
    ∀ y ∈ exportYears db since,
      ¬ yearCount db y ≤ maxFileSize / ESTIMATED_BYTES_PER_RECORD →
      ∀ p ∈ (yearMonths db since).filter (fun q => q.1 == y),
        ¬ monthCount db p ≤ maxFileSize / ESTIMATED_BYTES_PER_RECORD →
        monthPeriodRecords db since p = []
          ∨ maxFileSize / ESTIMATED_BYTES_PER_RECORD ≠ 0 := by
  intro y hy hyc p hp hmc
  by_cases hz : maxFileSize / ESTIMATED_BYTES_PER_RECORD = 0
  · left
    by_contra hne
    have hymsf : (yearMonths db since).isEmpty = false := by
      revert hyms
      cases (yearMonths db since).isEmpty <;> simp
    have hT : exportCrash db since maxFileSize = true := by
      simp only [exportCrash]
      rw [Bool.and_eq_true, Bool.and_eq_true, Bool.and_eq_true]
      refine ⟨⟨⟨by simp [hfits], by simp [hymsf]⟩, by simp [hz]⟩, ?_⟩
      rw [List.any_eq_true]
      refine ⟨y, hy, ?_⟩
      rw [Bool.and_eq_true]
      refine ⟨by simp [hyc], ?_⟩
      rw [List.any_eq_true]
      refine ⟨p, hp, ?_⟩
      rw [Bool.and_eq_true]
      refine ⟨by simp [hmc], ?_⟩
      simp [List.isEmpty_iff, hne]
    rw [hT] at hcrash
    exact absurd hcrash (by simp)
  · right
    exact hz

/-- The records of `exportChunkedCore` are the filtered records, up to
order. -/
theorem exportCore_records_perm (db : List Record) (since : Option Date)
    (maxFileSize : Nat)
    (hv : ∀ r ∈ db, ValidDate r.date)
    (hcrash : exportCrash db since maxFileSize = false) :
    ((exportChunkedCore db since maxFileSize).flatMap
      (fun sb : Suffix × List Record => sb.2)).Perm (filterSince since db) := by
  by_cases hfits : (filterSince since db).length * ESTIMATED_BYTES_PER_RECORD
      ≤ maxFileSize
  · simp only [exportChunkedCore, if_pos hfits]
    simp
  · simp only [exportChunkedCore, if_neg hfits]
    by_cases hyms : (yearMonths db since).isEmpty = true
    · rw [if_pos hyms]
      simp
    · rw [if_neg hyms]
      have h0 := export_h0_of_no_crash db since maxFileSize hcrash hfits hyms
      by_cases hres : ((exportYears db since).flatMap
          (yearBundles db since (maxFileSize / ESTIMATED_BYTES_PER_RECORD))).isEmpty
          = true
      · rw [if_pos hres]
        have hperm := exportResult_records_perm db since
          (maxFileSize / ESTIMATED_BYTES_PER_RECORD) hv h0
        rw [List.isEmpty_iff.mp hres] at hperm
        have hflt : filterSince since db = [] :=
          (List.Perm.nil_eq (by simpa using hperm)).symm
        rw [hflt]
        simp
      · rw [if_neg hres]
        exact exportResult_records_perm db since
          (maxFileSize / ESTIMATED_BYTES_PER_RECORD) hv h0

/-- C3: the bundles emitted by the chunked export together contain exactly the
source records restricted to `date >= sinceDate`: their concatenation is a
permutation of the filtered record set (so the union has exactly its size and
no record is emitted twice). -/
theorem export_chunked_complete (db : List Record) (since : Option Date)
    (maxFileSize : Nat) (out : List (Suffix × List Record))
    (hv : ∀ r ∈ db, ValidDate r.date)
    (hout : export_to_json_chunked db since maxFileSize = some out) :
    ((out.flatMap (fun sb : Suffix × List Record => sb.2)).Perm
      (filterSince since db)) ∧
    (out.flatMap (fun sb : Suffix × List Record => sb.2)).length
      = (filterSince since db).length := by
  unfold export_to_json_chunked at hout
  by_cases hc : exportCrash db since maxFileSize = true
  · rw [if_pos hc] at hout
    exact absurd hout (by simp)
  · have hc' : exportCrash db since maxFileSize = false := by
      revert hc
      cases exportCrash db since maxFileSize <;> simp
    rw [if_neg hc] at hout
    have hout' : exportChunkedCore db since maxFileSize = out :=
      Option.some_injective _ hout
    subst hout'
    have hperm := exportCore_records_perm db since maxFileSize hv hc'
    exact ⟨hperm, hperm.length_eq⟩

/-- C3 witness: three records over two years with a 1100-byte budget split
into one bundle per year; together they hold exactly the three records. -/
theorem export_chunked_complete_witness :
    ((([(Suffix.year 2023,
        [⟨"s1", "u1", "t1", "m", 1, 1, 1, 0, 0, "f", "b", "v", ⟨2023, 5, 1⟩⟩,
         ⟨"s2", "u2", "t2", "m", 1, 1, 1, 0, 0, "f", "b", "v", ⟨2023, 6, 2⟩⟩]),
       (Suffix.year 2024,
        [⟨"s3", "u3", "t3", "m", 1, 1, 1, 0, 0, "f", "b", "v", ⟨2024, 1, 15⟩⟩])]
      : List (Suffix × List Record)).flatMap
        (fun sb : Suffix × List Record => sb.2)).Perm
      (filterSince none
        [⟨"s1", "u1", "t1", "m", 1, 1, 1, 0, 0, "f", "b", "v", ⟨2023, 5, 1⟩⟩,
         ⟨"s2", "u2", "t2", "m", 1, 1, 1, 0, 0, "f", "b", "v", ⟨2023, 6, 2⟩⟩,
         ⟨"s3", "u3", "t3", "m", 1, 1, 1, 0, 0, "f", "b", "v", ⟨2024, 1, 15⟩⟩])) ∧
    (([(Suffix.year 2023,
        [⟨"s1", "u1", "t1", "m", 1, 1, 1, 0, 0, "f", "b", "v", ⟨2023, 5, 1⟩⟩,
         ⟨"s2", "u2", "t2", "m", 1, 1, 1, 0, 0, "f", "b", "v", ⟨2023, 6, 2⟩⟩]),
       (Suffix.year 2024,
        [⟨"s3", "u3", "t3", "m", 1, 1, 1, 0, 0, "f", "b", "v", ⟨2024, 1, 15⟩⟩])]
      : List (Suffix × List Record)).flatMap
        (fun sb : Suffix × List Record => sb.2)).length
      = (filterSince none
        [⟨"s1", "u1", "t1", "m", 1, 1, 1, 0, 0, "f", "b", "v", ⟨2023, 5, 1⟩⟩,
         ⟨"s2", "u2", "t2", "m", 1, 1, 1, 0, 0, "f", "b", "v", ⟨2023, 6, 2⟩⟩,
         ⟨"s3", "u3", "t3", "m", 1, 1, 1, 0, 0, "f", "b", "v", ⟨2024, 1, 15⟩⟩]).length :=
  export_chunked_complete
    [⟨"s1", "u1", "t1", "m", 1, 1, 1, 0, 0, "f", "b", "v", ⟨2023, 5, 1⟩⟩,
     ⟨"s2", "u2", "t2", "m", 1, 1, 1, 0, 0, "f", "b", "v", ⟨2023, 6, 2⟩⟩,
     ⟨"s3", "u3", "t3", "m", 1, 1, 1, 0, 0, "f", "b", "v", ⟨2024, 1, 15⟩⟩]
    none 1100 _ (by decide) (by decide)

/-- C5: when the estimated export does not fit in `maxFileSizeBytes` (the
non-degenerate case), every emitted bundle holds at most
`maxFileSizeBytes / bytesPerRecordEstimate` records. -/
theorem export_chunked_size_bound (db : List Record) (since : Option Date)
    (maxFileSize : Nat) (out : List (Suffix × List Record))
    (hv : ∀ r ∈ db, ValidDate r.date)
    (hout : export_to_json_chunked db since maxFileSize = some out)
    (hbig : ¬ (filterSince since db).length * ESTIMATED_BYTES_PER_RECORD
      ≤ maxFileSize) :
    ∀ sb ∈ out, sb.2.length ≤ maxFileSize / ESTIMATED_BYTES_PER_RECORD := by
  unfold export_to_json_chunked at hout
  by_cases hc : exportCrash db since maxFileSize = true
  · rw [if_pos hc] at hout
    exact absurd hout (by simp)
  · have hc' : exportCrash db since maxFileSize = false := by
      revert hc
      cases exportCrash db since maxFileSize <;> simp
    rw [if_neg hc] at hout
    have hout' : exportChunkedCore db since maxFileSize = out :=
      Option.some_injective _ hout
    subst hout'
    intro sb hsb
    simp only [exportChunkedCore, if_neg hbig] at hsb
    by_cases hyms : (yearMonths db since).isEmpty = true
    · exfalso
      have hfltnil : filterSince since db = [] := by
        have h1 : ((filterSince since db).map ymKey).dedup = [] :=
          List.isEmpty_iff.mp hyms
        exact List.map_eq_nil_iff.mp ((List.dedup_eq_nil _).mp h1)
      rw [hfltnil] at hbig
      simp at hbig
    · rw [if_neg hyms] at hsb
      have h0 := export_h0_of_no_crash db since maxFileSize hc' hbig hyms
      by_cases hres : ((exportYears db since).flatMap
          (yearBundles db since
            (maxFileSize / ESTIMATED_BYTES_PER_RECORD))).isEmpty = true
      · exfalso
        have hperm := exportResult_records_perm db since
          (maxFileSize / ESTIMATED_BYTES_PER_RECORD) hv h0
        rw [List.isEmpty_iff.mp hres] at hperm
        have hfltnil : filterSince since db = [] :=
          (List.Perm.nil_eq (by simpa using hperm)).symm
        rw [hfltnil] at hbig
        simp at hbig
      · rw [if_neg hres] at hsb
        obtain ⟨y, _, hsb'⟩ := List.mem_flatMap.mp hsb
        exact yearBundles_length_le db since
          (maxFileSize / ESTIMATED_BYTES_PER_RECORD) y hv sb hsb'

/-- C5 witness: three records in one month with a 1100-byte budget — the month
is chunked into two bundles, of 2 and 1 records, each within the bound of
`1100 / 550 = 2` records. -/
theorem export_chunked_size_bound_witness :
    ((Suffix.chunk 2023 5 1,
      [(⟨"s1", "u1", "t1", "m", 1, 1, 1, 0, 0, "f", "b", "v", ⟨2023, 5, 1⟩⟩ : Record),
       ⟨"s2", "u2", "t2", "m", 1, 1, 1, 0, 0, "f", "b", "v", ⟨2023, 5, 2⟩⟩])
      : Suffix × List Record).2.length ≤ 1100 / ESTIMATED_BYTES_PER_RECORD ∧
    ((Suffix.chunk 2023 5 2,
      [(⟨"s3", "u3", "t3", "m", 1, 1, 1, 0, 0, "f", "b", "v", ⟨2023, 5, 3⟩⟩ : Record)])
      : Suffix × List Record).2.length ≤ 1100 / ESTIMATED_BYTES_PER_RECORD :=
  ⟨export_chunked_size_bound
    [⟨"s1", "u1", "t1", "m", 1, 1, 1, 0, 0, "f", "b", "v", ⟨2023, 5, 1⟩⟩,
     ⟨"s2", "u2", "t2", "m", 1, 1, 1, 0, 0, "f", "b", "v", ⟨2023, 5, 2⟩⟩,
     ⟨"s3", "u3", "t3", "m", 1, 1, 1, 0, 0, "f", "b", "v", ⟨2023, 5, 3⟩⟩]
    none 1100
    [(Suffix.chunk 2023 5 1,
      [⟨"s1", "u1", "t1", "m", 1, 1, 1, 0, 0, "f", "b", "v", ⟨2023, 5, 1⟩⟩,
       ⟨"s2", "u2", "t2", "m", 1, 1, 1, 0, 0, "f", "b", "v", ⟨2023, 5, 2⟩⟩]),
     (Suffix.chunk 2023 5 2,
      [⟨"s3", "u3", "t3", "m", 1, 1, 1, 0, 0, "f", "b", "v", ⟨2023, 5, 3⟩⟩])]
    (by decide) (by decide) (by decide) _ (by decide),
   export_chunked_size_bound
    [⟨"s1", "u1", "t1", "m", 1, 1, 1, 0, 0, "f", "b", "v", ⟨2023, 5, 1⟩⟩,
     ⟨"s2", "u2", "t2", "m", 1, 1, 1, 0, 0, "f", "b", "v", ⟨2023, 5, 2⟩⟩,
     ⟨"s3", "u3", "t3", "m", 1, 1, 1, 0, 0, "f", "b", "v", ⟨2023, 5, 3⟩⟩]
    none 1100
    [(Suffix.chunk 2023 5 1,
      [⟨"s1", "u1", "t1", "m", 1, 1, 1, 0, 0, "f", "b", "v", ⟨2023, 5, 1⟩⟩,
       ⟨"s2", "u2", "t2", "m", 1, 1, 1, 0, 0, "f", "b", "v", ⟨2023, 5, 2⟩⟩]),
     (Suffix.chunk 2023 5 2,
      [⟨"s3", "u3", "t3", "m", 1, 1, 1, 0, 0, "f", "b", "v", ⟨2023, 5, 3⟩⟩])]
    (by decide) (by decide) (by decide) _ (by decide)⟩

/-- C9 witness: an incremental push whose export is a single empty bundle. -/
theorem push_zero_records_touches_nothing_witness :
    push
      ⟨"mach", "i", "20240101", none, none, "gid",
        fun _ => Except.error (), none, false, fun _ => ⟨2024, 1, 1⟩⟩
      [(Suffix.single, ⟨"mach", "i", [], none, 0⟩)] false false false
      = (.nothingToSync, []) :=
  push_zero_records_touches_nothing _ _ false false (by decide)

end CCUA
